import Mathlib

/-!
Shallow embedding of the netzob typed-value layer
(src/netzob/Model/Vocabulary/Types/BitArray.py, HexaString.py, Raw.py,
IPv4.py) together with the theorems settling the frozen claims about it.

Conventions of the embedding:
* a Python bitarray is a `List Bool` (bit i of the array is element i);
* Python bytes are `List Nat` (each element a byte value), Python str is
  `List Char`, machine integers are `Nat`/`Int`;
* fallible Python code returns `Except PyErr _`, where `PyErr` names the
  Python exception class actually raised;
* `random.randint(0, 1)` draws are taken from an explicit bit stream
  `coin : Nat → Bool`, successive calls consuming successive indices, and
  the source's unbounded reject-and-resample loop is run with explicit
  fuel (`modelDiverge` marks the modelling fuel running out, which is not
  a Python exception but the loop simply not having terminated yet);
* `AbstractType.py` and `TypeConverter.py` are not part of the excerpt;
  the few facts about them that the embedded methods need are modelled
  from the specification and marked `Modelled from the spec:`.
-/

namespace NetzobModel

/-- Python exception classes raised by the embedded code, plus
`modelDiverge` (see the file header: the unbounded resampling loop ran out
of modelling fuel). The repository defines no dedicated domain-error class
for concretization failures: every failure path in the excerpt raises one
of Python's built-in exceptions listed here. -/
inductive PyErr where
  | pyTypeError (msg : String)
  | pyValueError (msg : String)
  | pyKeyError
  | pyIndexError
  | pyAssertionError
  | pyUnicodeDecodeError
  | pyAttributeError
  | pyStructError
  | pyUnboundLocalError
  | modelDiverge
  deriving Repr, DecidableEq

/-- A Python value passed as the `data` argument of `canParse`: a bitarray,
a bytes object, a str, or an int. -/
inductive PyData where
  | pyBits (bits : List Bool)
  | pyBytes (bytes : List Nat)
  | pyStr (chars : List Char)
  | pyInt (n : Int)
  deriving Repr, DecidableEq

instance {A B : Type} [DecidableEq A] [DecidableEq B] :
    DecidableEq (Except A B) := fun x y =>
  match x, y with
  | .ok a, .ok b =>
    if h : a = b then isTrue (by rw [h])
    else isFalse (by intro he; cases he; exact h rfl)
  | .error a, .error b =>
    if h : a = b then isTrue (by rw [h])
    else isFalse (by intro he; cases he; exact h rfl)
  | .ok _, .error _ => isFalse (by intro he; cases he)
  | .error _, .ok _ => isFalse (by intro he; cases he)

/-- Reduction of the monadic `pure` into the Except success constructor. -/
theorem pyPureOk {A : Type} (a : A) : (pure a : Except PyErr A) = Except.ok a :=
  rfl

/-- Reduction of the Except monad bind on a success (used to unfold the
embedded do-notation in proofs). -/
theorem pyBindOk {A B : Type} (a : A) (f : A → Except PyErr B) :
    (Bind.bind (Except.ok a) f : Except PyErr B) = f a := rfl

/-- Reduction of the Except monad bind on a failure. -/
theorem pyBindError {A B : Type} (e : PyErr) (f : A → Except PyErr B) :
    (Bind.bind (Except.error e) f : Except PyErr B) = .error e := rfl

/-- `bitarray.setall(b)`: overwrite every bit, keeping the length. -/
def pySetall (v : List Bool) (b : Bool) : List Bool :=
  List.replicate v.length b

/-- Python `value[i] = 1` for a nonnegative index: raises `IndexError` when
the index is out of range. -/
def pySetIdxTrue (v : List Bool) (i : Nat) : Except PyErr (List Bool) :=
  if i < v.length then .ok (v.set i true) else .error .pyIndexError

/-- Python `value[-1] = 1`: the last position; raises `IndexError` on an
empty bitarray. -/
def pySetLastTrue (v : List Bool) : Except PyErr (List Bool) :=
  pySetIdxTrue v (v.length - 1)

/-- Python slice assignment `value[a:b] = 1`: positions `a ≤ i < b` become
1, silently clamped to the length (slice assignment never raises). -/
def pySliceAssignTrue : List Bool → Nat → Nat → List Bool
  | [], _, _ => []
  | x :: xs, a, b =>
    (if a = 0 ∧ 0 < b then true else x) :: pySliceAssignTrue xs (a - 1) (b - 1)

/-- The k-th call of `[random.randint(0, 1) for i in range(0, size)]`,
reading `size` bits from the coin stream. -/
def drawBits (coin : Nat → Bool) (size k : Nat) : List Bool :=
  (List.range size).map (fun i => coin (k * size + i))

/-- The source's `while value in excluded:` reject-and-resample loop,
starting from draw index `k`, with explicit fuel. -/
def rejectResample (excluded : List (List Bool)) (coin : Nat → Bool)
    (size : Nat) : Nat → Nat → Option (List Bool)
  | _, 0 => none
  | k, fuel + 1 =>
    let v := drawBits coin size k
    if v ∈ excluded then rejectResample excluded coin size (k + 1) fuel
    else some v

/-- The six-element `excluded` list built by the `VALUE_RAND` branch
(all-zero, all-one, MSB set, LSB set, top half set, bottom half set);
`excluded[2][0] = 1` and `excluded[3][-1] = 1` raise `IndexError` on a
zero-length bitarray exactly as in Python. -/
def buildExcluded (size : Nat) : Except PyErr (List (List Bool)) := do
  let zero := pySetall (List.replicate size false) false
  let ones := pySetall (List.replicate size false) true
  let msb ← pySetIdxTrue zero 0
  let lsb ← pySetLastTrue zero
  let top := pySliceAssignTrue zero 0 (size / 2)
  let bottom := pySliceAssignTrue zero (size / 2) size
  .ok [zero, ones, msb, lsb, top, bottom]

/-- The `BoundaryValue` enum shared (as two identical copies) by
`BitArray` (BitArray.py 227-238) and `HexaString` (HexaString.py 218-229);
all seven members are tagged valid. -/
inductive GenBoundaryValue where
  | VALUE_NONE
  | VALUE_ALL
  | VALUE_RAND
  | VALUE_MSB
  | VALUE_LSB
  | VALUE_TOPHALF
  | VALUE_BOTTOMHALF
  deriving Repr, DecidableEq

/-- The Python enum member name. -/
def GenBoundaryValue.memberName : GenBoundaryValue → String
  | .VALUE_NONE => "VALUE_NONE"
  | .VALUE_ALL => "VALUE_ALL"
  | .VALUE_RAND => "VALUE_RAND"
  | .VALUE_MSB => "VALUE_MSB"
  | .VALUE_LSB => "VALUE_LSB"
  | .VALUE_TOPHALF => "VALUE_TOPHALF"
  | .VALUE_BOTTOMHALF => "VALUE_BOTTOMHALF"

/-- `BoundaryValue[s]`: enum lookup by member name (`KeyError` when the
name is unknown is handled at the call site). -/
def genBoundaryValueOfName (s : String) : Option GenBoundaryValue :=
  if s = "VALUE_NONE" then some .VALUE_NONE
  else if s = "VALUE_ALL" then some .VALUE_ALL
  else if s = "VALUE_RAND" then some .VALUE_RAND
  else if s = "VALUE_MSB" then some .VALUE_MSB
  else if s = "VALUE_LSB" then some .VALUE_LSB
  else if s = "VALUE_TOPHALF" then some .VALUE_TOPHALF
  else if s = "VALUE_BOTTOMHALF" then some .VALUE_BOTTOMHALF
  else none

/-- `__members__` iteration order of the shared `BoundaryValue` enum. -/
def genBoundaryMembers : List GenBoundaryValue :=
  [.VALUE_NONE, .VALUE_ALL, .VALUE_RAND, .VALUE_MSB, .VALUE_LSB,
   .VALUE_TOPHALF, .VALUE_BOTTOMHALF]

/-- The branch-by-branch value construction shared verbatim by
`BitArray.concretize` (BitArray.py 245-285), `HexaString.concretize`
(HexaString.py 236-276) and the generic-tag branches of `Raw.concretize`
(Raw.py 303-343): the three source bodies are identical copies.
`bitarray(size)` is uninitialized in Python; every branch first overwrites
all bits with `setall`, so the embedding starts from the all-false list. -/
def boundaryValueBits (size : Nat) (tag : GenBoundaryValue)
    (coin : Nat → Bool) (fuel : Nat) : Except PyErr (List Bool) :=
  let base := List.replicate size false
  match tag with
  | .VALUE_NONE => .ok (pySetall base false)
  | .VALUE_ALL => .ok (pySetall base true)
  | .VALUE_MSB => pySetIdxTrue (pySetall base false) 0
  | .VALUE_LSB => pySetLastTrue (pySetall base false)
  | .VALUE_TOPHALF => .ok (pySliceAssignTrue (pySetall base false) 0 (size / 2))
  | .VALUE_BOTTOMHALF => .ok (pySliceAssignTrue (pySetall base false) (size / 2) size)
  | .VALUE_RAND => do
    let excluded ← buildExcluded size
    match rejectResample excluded coin size 0 fuel with
    | some v => .ok v
    | none => .error .modelDiverge

/-- The state of a `BitArray` instance: the `(min, max)` bit-size bounds,
the optional pinned value and the `concretized` flag.
Modelled from the spec: the fields live on `AbstractType` (not in the
excerpt); per spec section 3 a TypedValue carries
`size : (Option min_bits, Option max_bits)`, `value : Option BitString`
and `concretized : bool`, the latter false until a concretization sets it. -/
structure BitArrayT where
  minBits : Option Nat
  maxBits : Option Nat
  value : Option (List Bool)
  concretized : Bool
  deriving Repr, DecidableEq

/-- Modelled from the spec: `AbstractType.concretize` (AbstractType.py is
not in the excerpt) resolves the target bit length from the size range —
a closed range (min = max) yields that bound, an open range takes the bit
length supplied by the instruction set (the "Size" entry of the
column-value mapping), and failing that it fails; with `align` the length
is rounded up to a whole number of bytes. -/
def abstractConcretizeSize (minB maxB : Option Nat)
    (ca : List (String × String)) (align : Bool) : Except PyErr Nat :=
  let fromRange : Option Nat :=
    match minB, maxB with
    | some a, some b => if a = b then some a else none
    | _, _ => none
  let resolved : Option Nat :=
    match fromRange with
    | some n => some n
    | none => (ca.lookup "Size").bind (fun s => s.toNat?)
  match resolved with
  | none => .error (.pyValueError "no size resolved")
  | some n => .ok (if align then 8 * ((n + 7) / 8) else n)

/-- `BitArray.concretize` (BitArray.py 240-291): resolve the size, look up
the selector key "BoundaryValue" (the `__name__` of the inner enum class),
build the bits for the named tag, pin `value`, set `concretized`, return
self; with no selector key raise `ValueError`. -/
def bitArrayConcretize (b : BitArrayT) (ca : List (String × String))
    (coin : Nat → Bool) (fuel : Nat) : Except PyErr BitArrayT := do
  let size ← abstractConcretizeSize b.minBits b.maxBits ca false
  match ca.lookup "BoundaryValue" with
  | some s =>
    match genBoundaryValueOfName s with
    | none => .error .pyKeyError
    | some tag => do
      let v ← boundaryValueBits size tag coin fuel
      .ok { b with value := some v, concretized := true }
  | none => .error (.pyValueError "Could not construct BitArray, no valid spec in CA")

/-- `BitArray.canParse` (BitArray.py 69-115): `TypeError` on `None` and on
any non-bitarray argument; `False` on empty data and on data violating a
configured bound; `True` otherwise. -/
def bitArrayCanParse (b : BitArrayT) (data : Option PyData) :
    Except PyErr Bool :=
  match data with
  | none => .error (.pyTypeError "data cannot be None")
  | some (PyData.pyBits l) =>
    if l.length = 0 then .ok false
    else
      let minViolated : Bool :=
        match b.minBits with
        | some mn => decide (mn > l.length)
        | none => false
      let maxViolated : Bool :=
        match b.maxBits with
        | some mx => decide (mx < l.length)
        | none => false
      if minViolated then .ok false
      else if maxViolated then .ok false
      else .ok true
  | some _ => .error (.pyTypeError "Data should be a python raw")

/-- `BitArray._construct_boundary_values` (BitArray.py 212-225): the
applicable subset of the `BoundaryValue` members, dropping tags as the
maximum size shrinks; with an unbounded maximum (`None`) the very first
Python comparison `max_size < 4` raises `TypeError`. The size-related
entries contributed by the `super()` call are outside the claims and are
not modelled. -/
def bitArrayConstructBoundaryValues (maxSize : Option Nat) :
    Except PyErr (List GenBoundaryValue) :=
  match maxSize with
  | none => .error (.pyTypeError "unorderable types NoneType and int")
  | some m =>
    let omitted : List GenBoundaryValue :=
      (if m < 4 then [.VALUE_TOPHALF] else []) ++
      (if m < 3 then [.VALUE_BOTTOMHALF, .VALUE_RAND] else []) ++
      (if m < 2 then [.VALUE_MSB, .VALUE_LSB] else [])
    .ok (genBoundaryMembers.filter (fun x => decide (x ∉ omitted)))

/-- Bit order used by the bitarray byte conversions: a big-endian bitarray
stores each byte most-significant bit first, a little-endian one least
significant bit first. -/
inductive Endianness where
  | big
  | little
  deriving Repr, DecidableEq

/-- `bitarray.frombytes` on one byte: the eight bits of the byte in the
order determined by the bitarray's endianness. -/
def byteToBits (e : Endianness) (b : Nat) : List Bool :=
  match e with
  | .big => [b.testBit 7, b.testBit 6, b.testBit 5, b.testBit 4,
             b.testBit 3, b.testBit 2, b.testBit 1, b.testBit 0]
  | .little => [b.testBit 0, b.testBit 1, b.testBit 2, b.testBit 3,
                b.testBit 4, b.testBit 5, b.testBit 6, b.testBit 7]

/-- `bitarray.frombytes`: concatenation of the per-byte bit patterns. -/
def bytesToBits (e : Endianness) (bs : List Nat) : List Bool :=
  (bs.map (byteToBits e)).flatten

/-- One byte back from eight bits, honouring the bit order. -/
def bitsToByte (e : Endianness) (l : List Bool) : Nat :=
  match e with
  | .big => l.foldl (fun acc b => 2 * acc + (if b then 1 else 0)) 0
  | .little => l.foldr (fun b acc => (if b then 1 else 0) + 2 * acc) 0

/-- `bitarray.tobytes`: bytes from groups of eight bits, the last group
zero-padded to a full byte. -/
def bitsToBytesPadded (e : Endianness) : List Bool → List Nat
  | [] => []
  | b0 :: b1 :: b2 :: b3 :: b4 :: b5 :: b6 :: b7 :: rest =>
    bitsToByte e [b0, b1, b2, b3, b4, b5, b6, b7] :: bitsToBytesPadded e rest
  | rest => [bitsToByte e (rest ++ List.replicate (8 - rest.length) false)]

/-- UTF-8 encoding of one code point (`bytes(s, "utf-8")` on one char). -/
def utf8EncodeCp (c : Nat) : List Nat :=
  if c < 128 then [c]
  else if c < 2048 then [192 + c / 64, 128 + c % 64]
  else if c < 65536 then [224 + c / 4096, 128 + c / 64 % 64, 128 + c % 64]
  else [240 + c / 262144, 128 + c / 4096 % 64, 128 + c / 64 % 64, 128 + c % 64]

/-- The code point of a two-byte UTF-8 sequence, `none` when the
continuation byte is out of range. -/
def utf8Two (b c1 : Nat) : Option Nat :=
  if 128 ≤ c1 ∧ c1 ≤ 191 then some ((b - 192) * 64 + (c1 - 128)) else none

/-- The code point of a three-byte UTF-8 sequence; the first continuation
byte range is restricted after 0xE0 and 0xED, ruling out overlong and
surrogate forms as CPython does. -/
def utf8Three (b c1 c2 : Nat) : Option Nat :=
  if (if b = 224 then 160 else 128) ≤ c1 ∧ c1 ≤ (if b = 237 then 159 else 191) ∧
      128 ≤ c2 ∧ c2 ≤ 191 then
    some ((b - 224) * 4096 + (c1 - 128) * 64 + (c2 - 128))
  else none

/-- The code point of a four-byte UTF-8 sequence; the first continuation
byte range is restricted after 0xF0 and 0xF4, bounding the code point. -/
def utf8Four (b c1 c2 c3 : Nat) : Option Nat :=
  if (if b = 240 then 144 else 128) ≤ c1 ∧ c1 ≤ (if b = 244 then 143 else 191) ∧
      128 ≤ c2 ∧ c2 ≤ 191 ∧ 128 ≤ c3 ∧ c3 ≤ 191 then
    some ((b - 240) * 262144 + (c1 - 128) * 4096 + (c2 - 128) * 64 + (c3 - 128))
  else none

/-- The UTF-8 decoding loop, fueled for structural recursion: each decoded
code point consumes at least one byte, so any fuel of at least the byte
count behaves as the unbounded loop (the zero-fuel arm is unreachable
then). -/
def utf8DecodeGo : Nat → List Nat → Option (List Nat)
  | _, [] => some []
  | 0, _ :: _ => none
  | f + 1, b :: rest =>
    if b < 128 then (utf8DecodeGo f rest).map (fun cs => b :: cs)
    else if 194 ≤ b ∧ b ≤ 223 then
      match rest with
      | c1 :: rest2 =>
        (utf8Two b c1).bind
          (fun cp => (utf8DecodeGo f rest2).map (fun cs => cp :: cs))
      | [] => none
    else if 224 ≤ b ∧ b ≤ 239 then
      match rest with
      | c1 :: c2 :: rest2 =>
        (utf8Three b c1 c2).bind
          (fun cp => (utf8DecodeGo f rest2).map (fun cs => cp :: cs))
      | _ => none
    else if 240 ≤ b ∧ b ≤ 244 then
      match rest with
      | c1 :: c2 :: c3 :: rest2 =>
        (utf8Four b c1 c2 c3).bind
          (fun cp => (utf8DecodeGo f rest2).map (fun cs => cp :: cs))
      | _ => none
    else none

/-- Python `bytes.decode('utf-8')`: code points from bytes, `none` when the
byte sequence is not valid UTF-8 (where CPython raises
`UnicodeDecodeError`). -/
def utf8Decode (bs : List Nat) : Option (List Nat) :=
  utf8DecodeGo bs.length bs

/-- `BitArray.decode` (BitArray.py 132-166): `TypeError` on `None`,
otherwise `data.tobytes()`. -/
def bitArrayDecodeOp (data : Option (List Bool)) (e : Endianness) :
    Except PyErr (List Nat) :=
  match data with
  | none => .error (.pyTypeError "data cannot be None")
  | some l => .ok (bitsToBytesPadded e l)

/-- `BitArray.encode` (BitArray.py 168-210): `TypeError` on `None`; bytes
are loaded directly, str data is converted to its UTF-8 bytes first; any
other argument leaves `norm_data` unbound and Python raises
`UnboundLocalError` at `frombytes`. The embedded `Endianness` type only has
the two values the source accepts, so the invalid-endianness `ValueError`
branch is unreachable here. -/
def bitArrayEncodeOp (data : Option PyData) (e : Endianness) :
    Except PyErr (List Bool) :=
  match data with
  | none => .error (.pyTypeError "data cannot be None")
  | some (PyData.pyBytes bs) => .ok (bytesToBits e bs)
  | some (PyData.pyStr cs) =>
    .ok (bytesToBits e ((cs.map (fun c => utf8EncodeCp c.toNat)).flatten))
  | some _ => .error .pyUnboundLocalError

/-- The state of a `HexaString` instance; same modelled `AbstractType`
fields as `BitArrayT` (see there). -/
structure HexaStringT where
  minBits : Option Nat
  maxBits : Option Nat
  value : Option (List Bool)
  concretized : Bool
  deriving Repr, DecidableEq

/-- A code point allowed by `HexaString.canParse`: the decimal digits and
the lowercase letters a-f (HexaString.py 112-113). -/
def isHexAllowedCp (c : Nat) : Bool :=
  decide (48 ≤ c ∧ c ≤ 57) || decide (97 ≤ c ∧ c ≤ 102)

/-- The character loop of `HexaString.canParse` (HexaString.py 116-118):
`for i in range(0, len(data)): if str_data[i] not in allowed: return False`.
The loop runs over BYTE indices but reads CHARACTER positions, so when the
UTF-8 decoding shrank the data the read past the end raises `IndexError`,
as in Python. -/
def hexaCharLoop (strData : List Nat) : Nat → Nat → Except PyErr Bool
  | _, 0 => .ok true
  | i, remaining + 1 =>
    match strData[i]? with
    | none => .error .pyIndexError
    | some c =>
      if isHexAllowedCp c then hexaCharLoop strData (i + 1) remaining
      else .ok false

/-- `HexaString.canParse` (HexaString.py 64-120): `TypeError` on `None`;
`False` on empty data; then `data.decode('utf-8')` — which raises
`UnicodeDecodeError` on non-UTF-8 bytes, and is not available on the
argument shapes without a bytes-style decode method — followed by the
per-character hex-digit check. No size bound is consulted. -/
def hexaStringCanParse (data : Option PyData) : Except PyErr Bool :=
  match data with
  | none => .error (.pyTypeError "data cannot be None")
  | some (PyData.pyBytes bs) =>
    if bs.length = 0 then .ok false
    else
      match utf8Decode bs with
      | none => .error .pyUnicodeDecodeError
      | some cps => hexaCharLoop cps 0 bs.length
  | some (PyData.pyStr cs) =>
    if cs.length = 0 then .ok false else .error .pyAttributeError
  | some (PyData.pyBits l) =>
    if l.length = 0 then .ok false
    else .error (.pyTypeError "bitarray decode expects a code dict")
  | some (PyData.pyInt _) => .error (.pyTypeError "object of type int has no len")

/-- The lowercase hex digit for a value below 16 (`binascii.hexlify`
output alphabet). -/
def hexDigitChar (n : Nat) : Nat :=
  if n < 10 then 48 + n else 87 + n

/-- The value of one hex digit accepted by `binascii.unhexlify` (it also
accepts uppercase, unlike `canParse`). -/
def hexDigitVal (c : Nat) : Option Nat :=
  if 48 ≤ c ∧ c ≤ 57 then some (c - 48)
  else if 97 ≤ c ∧ c ≤ 102 then some (c - 87)
  else if 65 ≤ c ∧ c ≤ 70 then some (c - 55)
  else none

/-- `binascii.unhexlify` on an even-length digit string: consecutive digit
pairs become bytes; a non-hex character raises `binascii.Error` (a
`ValueError`). -/
def unhexlifyCore : List Nat → Except PyErr (List Nat)
  | [] => .ok []
  | c1 :: c2 :: rest =>
    match hexDigitVal c1, hexDigitVal c2 with
    | some v1, some v2 => do
      let tail ← unhexlifyCore rest
      .ok ((v1 * 16 + v2) :: tail)
    | _, _ => .error (.pyValueError "Non-hexadecimal digit found")
  | _ => .error (.pyValueError "Odd-length string")

/-- `HexaString.decode` (HexaString.py 122-163): `TypeError` on `None`;
odd-length input is left-padded with the digit 0 (code point 48), then
unhexlified. Characters are embedded as code points. -/
def hexaStringDecode (data : Option (List Nat)) : Except PyErr (List Nat) :=
  match data with
  | none => .error (.pyTypeError "data cannot be None")
  | some cs =>
    unhexlifyCore (if cs.length % 2 = 1 then 48 :: cs else cs)

/-- `HexaString.encode` (HexaString.py 165-201): `TypeError` on `None`,
otherwise `binascii.hexlify` — two lowercase hex digits per byte. -/
def hexaStringEncode (data : Option (List Nat)) : Except PyErr (List Nat) :=
  match data with
  | none => .error (.pyTypeError "data cannot be None")
  | some bs =>
    .ok ((bs.map (fun b => [hexDigitChar (b / 16 % 16), hexDigitChar (b % 16)])).flatten)

/-- `HexaString._construct_boundary_values` (HexaString.py 203-216):
identical omission logic to `BitArray._construct_boundary_values`,
including the `TypeError` from comparing an unset maximum with an int. -/
def hexaStringConstructBoundaryValues (maxSize : Option Nat) :
    Except PyErr (List GenBoundaryValue) :=
  match maxSize with
  | none => .error (.pyTypeError "unorderable types NoneType and int")
  | some m =>
    let omitted : List GenBoundaryValue :=
      (if m < 4 then [.VALUE_TOPHALF] else []) ++
      (if m < 3 then [.VALUE_BOTTOMHALF, .VALUE_RAND] else []) ++
      (if m < 2 then [.VALUE_MSB, .VALUE_LSB] else [])
    .ok (genBoundaryMembers.filter (fun x => decide (x ∉ omitted)))

/-- `HexaString.concretize` (HexaString.py 231-282): same shape as
`BitArray.concretize` (the value-construction bodies are identical copies),
with the `HexaString` wording in the `ValueError`. -/
def hexaStringConcretize (h : HexaStringT) (ca : List (String × String))
    (coin : Nat → Bool) (fuel : Nat) : Except PyErr HexaStringT := do
  let size ← abstractConcretizeSize h.minBits h.maxBits ca false
  match ca.lookup "BoundaryValue" with
  | some s =>
    match genBoundaryValueOfName s with
    | none => .error .pyKeyError
    | some tag => do
      let v ← boundaryValueBits size tag coin fuel
      .ok { h with value := some v, concretized := true }
  | none => .error (.pyValueError "Could not construct HexaString, no valid spec in CA")

/-- The state of a `Raw` instance: the modelled `AbstractType` fields (see
`BitArrayT`) plus the optional `alphabet` (Raw.py 98, a list of
one-character strings, embedded as code points). `unitSizeBits` is the
bit width of `self.unitSize` as used by `unit_size_to_int`; modelled from
the spec ("unit size" per spec section 3, default one byte). -/
structure RawT where
  minBits : Option Nat
  maxBits : Option Nat
  value : Option (List Bool)
  concretized : Bool
  alphabet : Option (List Nat)
  unitSizeBits : Nat
  deriving Repr, DecidableEq

/-- The `Raw.BoundaryValue` enum (Raw.py 281-296): the seven generic bit
tags, all valid, plus the alphabet tags of which only `VALUE_LEGAL` is
valid. -/
inductive RawBoundaryValue where
  | VALUE_NONE
  | VALUE_ALL
  | VALUE_RAND
  | VALUE_MSB
  | VALUE_LSB
  | VALUE_TOPHALF
  | VALUE_BOTTOMHALF
  | VALUE_LEGAL
  | VALUE_ILLEGAL_START
  | VALUE_ILLEGAL_END
  | VALUE_ILLEGAL_RAND
  deriving Repr, DecidableEq

/-- The generic bit tag a `Raw.BoundaryValue` member corresponds to, when
it has one (the first seven members mirror the shared enum). -/
def rawGenericOf : RawBoundaryValue → Option GenBoundaryValue
  | .VALUE_NONE => some .VALUE_NONE
  | .VALUE_ALL => some .VALUE_ALL
  | .VALUE_RAND => some .VALUE_RAND
  | .VALUE_MSB => some .VALUE_MSB
  | .VALUE_LSB => some .VALUE_LSB
  | .VALUE_TOPHALF => some .VALUE_TOPHALF
  | .VALUE_BOTTOMHALF => some .VALUE_BOTTOMHALF
  | _ => none

/-- The Python enum member name. -/
def RawBoundaryValue.memberName : RawBoundaryValue → String
  | .VALUE_NONE => "VALUE_NONE"
  | .VALUE_ALL => "VALUE_ALL"
  | .VALUE_RAND => "VALUE_RAND"
  | .VALUE_MSB => "VALUE_MSB"
  | .VALUE_LSB => "VALUE_LSB"
  | .VALUE_TOPHALF => "VALUE_TOPHALF"
  | .VALUE_BOTTOMHALF => "VALUE_BOTTOMHALF"
  | .VALUE_LEGAL => "VALUE_LEGAL"
  | .VALUE_ILLEGAL_START => "VALUE_ILLEGAL_START"
  | .VALUE_ILLEGAL_END => "VALUE_ILLEGAL_END"
  | .VALUE_ILLEGAL_RAND => "VALUE_ILLEGAL_RAND"

/-- `Raw.BoundaryValue[s]`: enum lookup by member name. -/
def rawBoundaryValueOfName (s : String) : Option RawBoundaryValue :=
  if s = "VALUE_NONE" then some .VALUE_NONE
  else if s = "VALUE_ALL" then some .VALUE_ALL
  else if s = "VALUE_RAND" then some .VALUE_RAND
  else if s = "VALUE_MSB" then some .VALUE_MSB
  else if s = "VALUE_LSB" then some .VALUE_LSB
  else if s = "VALUE_TOPHALF" then some .VALUE_TOPHALF
  else if s = "VALUE_BOTTOMHALF" then some .VALUE_BOTTOMHALF
  else if s = "VALUE_LEGAL" then some .VALUE_LEGAL
  else if s = "VALUE_ILLEGAL_START" then some .VALUE_ILLEGAL_START
  else if s = "VALUE_ILLEGAL_END" then some .VALUE_ILLEGAL_END
  else if s = "VALUE_ILLEGAL_RAND" then some .VALUE_ILLEGAL_RAND
  else none

/-- `__members__` iteration order of `Raw.BoundaryValue`. -/
def rawBoundaryMembers : List RawBoundaryValue :=
  [.VALUE_NONE, .VALUE_ALL, .VALUE_RAND, .VALUE_MSB, .VALUE_LSB,
   .VALUE_TOPHALF, .VALUE_BOTTOMHALF, .VALUE_LEGAL, .VALUE_ILLEGAL_START,
   .VALUE_ILLEGAL_END, .VALUE_ILLEGAL_RAND]

/-- `Raw._construct_boundary_values` (Raw.py 249-279): with an alphabet,
drop every generic bit tag and thin the illegal tags when fewer than two
or three units fit; without one, drop the alphabet tags and thin the bit
tags exactly as `BitArray` does. Either branch compares the maximum
against an int, so an unset maximum raises `TypeError`. -/
def rawConstructBoundaryValues (alphabet : Option (List Nat))
    (unitSizeBits : Nat) (maxSize : Option Nat) :
    Except PyErr (List RawBoundaryValue) :=
  match maxSize with
  | none => .error (.pyTypeError "unorderable types NoneType and int")
  | some m =>
    let omitted : List RawBoundaryValue :=
      match alphabet with
      | some _ =>
        [.VALUE_NONE, .VALUE_ALL, .VALUE_RAND, .VALUE_MSB, .VALUE_LSB,
         .VALUE_TOPHALF, .VALUE_BOTTOMHALF] ++
        (if m < 2 * unitSizeBits then [.VALUE_ILLEGAL_END] else []) ++
        (if m < 3 * unitSizeBits then [.VALUE_ILLEGAL_RAND] else [])
      | none =>
        [.VALUE_LEGAL, .VALUE_ILLEGAL_START, .VALUE_ILLEGAL_END,
         .VALUE_ILLEGAL_RAND] ++
        (if m < 4 then [.VALUE_TOPHALF] else []) ++
        (if m < 3 then [.VALUE_BOTTOMHALF, .VALUE_RAND] else []) ++
        (if m < 2 then [.VALUE_MSB, .VALUE_LSB] else [])
    .ok (rawBoundaryMembers.filter (fun x => decide (x ∉ omitted)))

/-- `random.choice(alphabet)` repeated `count` times starting at stream
index `start`; `IndexError` on an empty alphabet as in Python. -/
def pickChars (alpha : List Nat) (alphaPick : Nat → Nat) :
    Nat → Nat → Except PyErr (List Nat)
  | _, 0 => .ok []
  | start, count + 1 =>
    match alpha[alphaPick start % alpha.length]? with
    | none => .error .pyIndexError
    | some c => do
      let rest ← pickChars alpha alphaPick (start + 1) count
      .ok (c :: rest)

/-- The source's `badbyte` loop (Raw.py 356-359): draw `chr(randint(0,127))`
until the character is outside the alphabet, with explicit fuel. -/
def badbyteSearch (alpha : List Nat) (bytePick : Nat → Nat) :
    Nat → Nat → Option Nat
  | _, 0 => none
  | k, fuel + 1 =>
    let b := bytePick k % 128
    if b ∈ alpha then badbyteSearch alpha bytePick (k + 1) fuel else some b

/-- A Python string of code points converted to bits the way
`TypeConverter.convert(generated, Raw, BitArray)` does: `Raw.decode` is the
identity and `BitArray.encode` takes the UTF-8 bytes (big-endian default
bit order). Modelled from the spec: TypeConverter.py is not in the
excerpt; per spec section 4.1 the conversion chains the two variants'
pure codecs. -/
def strToBitsDefault (cs : List Nat) : List Bool :=
  bytesToBits .big ((cs.map utf8EncodeCp).flatten)

/-- The alphabet branches of `Raw.concretize` (Raw.py 344-371): legal
content, or an illegal byte at the start, the end, or a random interior
position. `assert` failures surface as `AssertionError`; `randint(1,
len_bytes-2)` raises `ValueError` when the range is empty. -/
def rawAlphabetValueBits (r : RawT) (size : Nat) (tag : RawBoundaryValue)
    (alphaPick bytePick : Nat → Nat) (lenPick : Nat) (fuel : Nat) :
    Except PyErr (List Bool) :=
  match r.alphabet with
  | none => .error .pyAssertionError
  | some alpha =>
    let lenBytes := size / 8
    match tag with
    | .VALUE_LEGAL => do
      let cs ← pickChars alpha alphaPick 0 lenBytes
      .ok (strToBitsDefault cs)
    | .VALUE_ILLEGAL_START =>
      if alpha.length ≥ 128 then .error .pyAssertionError
      else
        match badbyteSearch alpha bytePick 0 fuel with
        | none => .error .modelDiverge
        | some bad => do
          let cs ← pickChars alpha alphaPick 0 (lenBytes - 1)
          .ok (strToBitsDefault (bad :: cs))
    | .VALUE_ILLEGAL_END =>
      if alpha.length ≥ 128 then .error .pyAssertionError
      else
        match badbyteSearch alpha bytePick 0 fuel with
        | none => .error .modelDiverge
        | some bad => do
          let cs ← pickChars alpha alphaPick 0 (lenBytes - 1)
          .ok (strToBitsDefault (cs ++ [bad]))
    | .VALUE_ILLEGAL_RAND =>
      if alpha.length ≥ 128 then .error .pyAssertionError
      else
        match badbyteSearch alpha bytePick 0 fuel with
        | none => .error .modelDiverge
        | some bad =>
          if lenBytes < 3 then .error (.pyValueError "empty range for randrange")
          else do
            let prefixLen := 1 + lenPick % (lenBytes - 2)
            let front ← pickChars alpha alphaPick 0 prefixLen
            let back ← pickChars alpha alphaPick prefixLen (lenBytes - prefixLen - 1)
            .ok (strToBitsDefault (front ++ [bad] ++ back))
    | _ => .error .pyAssertionError

/-- `Raw.concretize` (Raw.py 298-376): resolve the size (byte-aligned when
an alphabet is set), dispatch on the named tag — the generic branches are
the shared `boundaryValueBits`, the alphabet branches are
`rawAlphabetValueBits` — pin `value` and return self. Unlike the other
three variants, the source never sets `self.concretized` here (Raw.py
372-374). With no selector key it raises `ValueError`. -/
def rawConcretize (r : RawT) (ca : List (String × String))
    (coin : Nat → Bool) (alphaPick bytePick : Nat → Nat) (lenPick : Nat)
    (fuel : Nat) : Except PyErr RawT := do
  let size ← abstractConcretizeSize r.minBits r.maxBits ca r.alphabet.isSome
  match ca.lookup "BoundaryValue" with
  | some s =>
    match rawBoundaryValueOfName s with
    | none => .error .pyKeyError
    | some tag => do
      let v ←
        match rawGenericOf tag with
        | some gtag => boundaryValueBits size gtag coin fuel
        | none => rawAlphabetValueBits r size tag alphaPick bytePick lenPick fuel
      .ok { r with value := some v }
  | none => .error (.pyValueError "Could not construct Raw, no valid spec in CA")

/-- `Raw.canParse` (Raw.py 211-247): `TypeError` on `None`; `False` on
empty or non-byte-aligned data; with an alphabet each distinct element of
the data must be in the alphabet — iterating a bitarray or bytes yields
ints while the alphabet holds one-character strings, and an int never
equals a string in Python, so any nonempty data of those shapes fails the
membership test; str data compares character against character. -/
def rawCanParse (r : RawT) (data : Option PyData) : Except PyErr Bool :=
  match data with
  | none => .error (.pyTypeError "data cannot be None")
  | some (PyData.pyBits l) =>
    if l.length = 0 then .ok false
    else if l.length % 8 ≠ 0 then .ok false
    else
      match r.alphabet with
      | some _ => .ok false
      | none => .ok true
  | some (PyData.pyBytes bs) =>
    if bs.length = 0 then .ok false
    else if bs.length % 8 ≠ 0 then .ok false
    else
      match r.alphabet with
      | some _ => .ok false
      | none => .ok true
  | some (PyData.pyStr cs) =>
    if cs.length = 0 then .ok false
    else if cs.length % 8 ≠ 0 then .ok false
    else
      match r.alphabet with
      | some alpha => .ok (cs.all (fun c => decide (c.toNat ∈ alpha)))
      | none => .ok true
  | some (PyData.pyInt _) => .error (.pyTypeError "object of type int has no len")

/-- `Raw.decode` (Raw.py 197-202): the identity, with no argument check. -/
def rawDecode (data : Option PyData) : Option PyData :=
  data

/-- `Raw.encode` (Raw.py 204-209): the identity, with no argument check. -/
def rawEncode (data : Option PyData) : Option PyData :=
  data

/-- The sign interpretation used by `struct.unpack` in `IPv4.encode`. -/
inductive SignT where
  | signed
  | unsigned
  deriving Repr, DecidableEq

/-- Split a character list at a separator (Python `str.split(sep)`),
`acc` holding the current piece reversed. -/
def splitOnCharAux (sep : Char) : List Char → List Char → List (List Char)
  | [], acc => [acc.reverse]
  | c :: rest, acc =>
    if c = sep then acc.reverse :: splitOnCharAux sep rest []
    else splitOnCharAux sep rest (c :: acc)

/-- Parse a nonempty all-digit character list as a decimal number. -/
def parseDecimalAux : List Char → Nat → Option Nat
  | [], acc => some acc
  | c :: rest, acc =>
    if c.isDigit then parseDecimalAux rest (acc * 10 + (c.toNat - 48))
    else none

/-- Parse a decimal numeral; `none` on empty or non-digit input. -/
def parseDecimal (cs : List Char) : Option Nat :=
  match cs with
  | [] => none
  | _ => parseDecimalAux cs 0

/-- A dotted-quad IPv4 literal as its 32-bit value. Models the address
parsing done by netaddr's `IPAddress` on the canonical `a.b.c.d` form
(netaddr's more permissive inet_aton shorthands are not modelled; every
literal appearing in the theorems below is a canonical dotted quad). -/
def parseDottedQuad (cs : List Char) : Option Nat :=
  match splitOnCharAux '.' cs [] with
  | [a, b, c, d] => do
    let va ← parseDecimal a
    let vb ← parseDecimal b
    let vc ← parseDecimal c
    let vd ← parseDecimal d
    if va ≤ 255 ∧ vb ≤ 255 ∧ vc ≤ 255 ∧ vd ≤ 255 then
      some (va * 16777216 + vb * 65536 + vc * 256 + vd)
    else none
  | _ => none

/-- netaddr `IPAddress(int)`: valid for 0 ≤ n < 2^32 (v4 addresses only
in this model). -/
def ipAddressOfInt (n : Int) : Option Nat :=
  if 0 ≤ n ∧ n < 4294967296 then some n.toNat else none

/-- netaddr `IPAddress.is_netmask()`: the 32-bit value consists of k one
bits followed by zero bits for some k (this includes 0.0.0.0 and
255.255.255.255). -/
def ipIsNetmask (ip : Nat) : Bool :=
  (List.range 33).any (fun k => decide (ip = 4294967296 - 2 ^ (32 - k)))

/-- The `.packed` big-endian four-byte form of a 32-bit address. -/
def packedBytes (ip : Nat) : List Nat :=
  [ip / 16777216 % 256, ip / 65536 % 256, ip / 256 % 256, ip % 256]

/-- The `struct.unpack` fallback of `IPv4.encode` (IPv4.py 339-357): four
bytes become four quads (negative under a signed format, which then fails
address parsing), joined and parsed; any exception in this block is
re-raised as `TypeError`. The single-byte formats `BBBB`/`bbbb` make the
endianness flag irrelevant. A bitarray argument would be read through the
buffer protocol; that path is not modelled and is not relied on by any
theorem (the enclosing `canParse` wraps every failure into `False`). -/
def ipv4EncodeStructPath (data : PyData) (sgn : SignT) :
    Except PyErr (Option Nat) :=
  match data with
  | PyData.pyBytes bs =>
    if bs.length = 4 then
      if sgn = .signed ∧ bs.any (fun b => 128 ≤ b % 256) then
      .error (.pyTypeError "Impossible encode into an IPv4 data")
      else
        let ip := (bs.map (· % 256)).foldl (fun acc b => acc * 256 + b) 0
        if ipIsNetmask ip then .ok none else .ok (some ip)
    else .error (.pyTypeError "Impossible encode into an IPv4 data")
  | _ => .error (.pyTypeError "Impossible encode into an IPv4 data")

/-- `IPv4.encode` (IPv4.py 321-357): a str or int is first tried as a
netaddr address, accepted when it is a version-4 non-netmask address;
otherwise (and for every other argument shape) the `struct.unpack` path
runs. Returns `none` where the Python function falls off the end and
returns `None`. -/
def ipv4Encode (data : PyData) (sgn : SignT) : Except PyErr (Option Nat) :=
  match data with
  | PyData.pyStr cs =>
    match parseDottedQuad cs with
    | some ip =>
      if ipIsNetmask ip then ipv4EncodeStructPath data sgn else .ok (some ip)
    | none => ipv4EncodeStructPath data sgn
  | PyData.pyInt n =>
    match ipAddressOfInt n with
    | some ip =>
      if ipIsNetmask ip then ipv4EncodeStructPath data sgn else .ok (some ip)
    | none => ipv4EncodeStructPath data sgn
  | _ => ipv4EncodeStructPath data sgn

/-- An IPv4 network as stored by netaddr's `IPNetwork`: the given address
and the routing prefix length. -/
structure IPNetworkT where
  addr : Nat
  cidr : Nat
  deriving Repr, DecidableEq

/-- The number of addresses in the network. -/
def netSize (net : IPNetworkT) : Nat :=
  2 ^ (32 - net.cidr)

/-- `IPNetwork.network`: the base (network) address. -/
def netBaseAddr (net : IPNetworkT) : Nat :=
  net.addr / netSize net * netSize net

/-- `IPNetwork.broadcast`: the highest address of the network. -/
def netBroadcast (net : IPNetworkT) : Nat :=
  netBaseAddr net + netSize net - 1

/-- `ip in network`: membership of an address in the network's range. -/
def netContains (net : IPNetworkT) (ip : Nat) : Bool :=
  decide (netBaseAddr net ≤ ip) && decide (ip < netBaseAddr net + netSize net)

/-- `IPNetwork.iter_hosts()`: every address strictly between the network
address and the broadcast address. -/
def netHosts (net : IPNetworkT) : List Nat :=
  (List.range (netSize net - 2)).map (fun i => netBaseAddr net + 1 + i)

/-- `IPNetwork.next()`: the adjacent network of the same prefix length. -/
def netNext (net : IPNetworkT) : IPNetworkT :=
  { addr := netBaseAddr net + netSize net, cidr := net.cidr }

/-- `random.choice([ip for ip in net.iter_hosts()])`: `IndexError` on an
empty host list, otherwise the host selected by the pick stream. -/
def chooseHost (net : IPNetworkT) (pick : Nat) : Except PyErr Nat :=
  match (netHosts net)[pick % (netHosts net).length]? with
  | none => .error .pyIndexError
  | some ip => .ok ip

/-- netaddr `IPNetwork(s)` on a `base/len` or bare-address literal
(a bare address gets a /32, as in netaddr). -/
def parseIPNetwork (cs : List Char) : Option IPNetworkT :=
  match splitOnCharAux '/' cs [] with
  | [a] => (parseDottedQuad a).map (fun ip => { addr := ip, cidr := 32 })
  | [a, p] => do
    let ip ← parseDottedQuad a
    let c ← parseDecimal p
    if c ≤ 32 then some { addr := ip, cidr := c } else none
  | _ => none

/-- The state of an `IPv4` instance: the optional pinned 32-bit value, the
optional network constraint and the `concretized` flag (the size range is
the fixed `(32, 32)` passed to the `super()` call, IPv4.py 108-114). -/
structure IPv4T where
  value : Option (List Bool)
  network : Option IPNetworkT
  concretized : Bool
  deriving Repr, DecidableEq

/-- `IPv4._isValidIPv4Network` (IPv4.py 264-283): `TypeError` on `None`,
otherwise whether netaddr parses the literal as a v4 network. -/
def isValidIPv4Network (network : Option (List Char)) : Except PyErr Bool :=
  match network with
  | none => .error (.pyTypeError "None is not valid IPv4 network")
  | some cs => .ok (parseIPNetwork cs).isSome

/-- The `network` property setter (IPv4.py 290-298): `None` clears the
constraint; an invalid literal raises `TypeError`; a valid one is stored
parsed. -/
def ipv4NetworkSetter (network : Option (List Char)) :
    Except PyErr (Option IPNetworkT) :=
  match network with
  | none => .ok none
  | some cs =>
    match parseIPNetwork cs with
    | none => .error (.pyTypeError "Specified network constraints is not valid IPv4 Network.")
    | some nt => .ok (some nt)

/-- The constraint-free core of `IPv4.canParse`, i.e. what
`IPv4().canParse(data)` computes (used by `IPv4.decode`): the encode
attempt wrapped so that any failure yields `False`. -/
def ipv4CanParseBase (d : PyData) (sgn : SignT) : Bool :=
  match ipv4Encode d sgn with
  | .error _ => false
  | .ok none => false
  | .ok (some ip) => !(ipIsNetmask ip)

/-- `IPv4.decode` (IPv4.py 300-319): reject what the constraint-free
`canParse` rejects, then take `IPAddress(data).packed`. `IPAddress` only
accepts a str or int, so four-raw-byte data that passed `canParse` through
the struct path still raises `TypeError` here (callers catch it). -/
def ipv4Decode (d : PyData) (sgn : SignT) : Except PyErr (List Nat) :=
  if ipv4CanParseBase d sgn = false then
    .error (.pyTypeError "Data is not a valid IPv4, cannot decode it.")
  else
    match d with
    | PyData.pyStr cs =>
      match parseDottedQuad cs with
      | some ip => .ok (packedBytes ip)
      | none => .error (.pyTypeError "netaddr address parsing failed")
    | PyData.pyInt n =>
      match ipAddressOfInt n with
      | some ip => .ok (packedBytes ip)
      | none => .error (.pyTypeError "netaddr address parsing failed")
    | _ => .error (.pyTypeError "netaddr address parsing failed")

/-- Modelled from the spec: `TypeConverter.convert(data, IPv4, BitArray)`
(TypeConverter.py is not in the excerpt) chains the variants' pure codecs
(spec section 4.1): the IPv4 decode to packed bytes followed by the
BitArray encode to bits (big-endian default bit order). -/
def typeConvertIPv4ToBits (d : PyData) (sgn : SignT) :
    Except PyErr (List Bool) := do
  let bs ← ipv4Decode d sgn
  .ok (bytesToBits .big bs)

/-- `IPv4.__init__` (IPv4.py 78-114): a non-bitarray value is converted to
bits through `TypeConverter` (possibly raising), a bitarray value is kept
as is; the network setter validates the network constraint. NOTHING here
rejects supplying both a value and a network constraint together. -/
def ipv4New (value : Option PyData) (network : Option (List Char))
    (sgn : SignT) : Except PyErr IPv4T := do
  let v : Option (List Bool) ←
    match value with
    | none => pure none
    | some (PyData.pyBits l) => pure (some l)
    | some d => do
      let bits ← typeConvertIPv4ToBits d sgn
      pure (some bits)
  let nw ← ipv4NetworkSetter network
  .ok { value := v, network := nw, concretized := false }

/-- `IPv4.canParse` (IPv4.py 175-262): `TypeError` on `None`; both
constraint checks sit inside bare `except:` blocks, so any present data
yields a boolean. The exact-value constraint has priority over the
network constraint. -/
def ipv4CanParse (inst : IPv4T) (data : Option PyData) (sgn : SignT) :
    Except PyErr Bool :=
  match data with
  | none => .error (.pyTypeError "data cannot be None")
  | some d =>
    match ipv4Encode d sgn with
    | .error _ => .ok false
    | .ok none => .ok false
    | .ok (some ip) =>
      if ipIsNetmask ip then .ok false
      else
        match inst.value with
        | some v =>
          match typeConvertIPv4ToBits d sgn with
          | .error _ => .ok false
          | .ok bits => .ok (decide (v = bits))
        | none =>
          match inst.network with
          | some net => .ok (netContains net ip)
          | none => .ok true

/-- The `IPv4.BoundaryValue` enum (IPv4.py 379-395), in declaration
order; the boolean is the member's validity flag. -/
inductive IPv4BoundaryValue where
  | VALUE_HOST
  | VALUE_BROADCAST
  | VALUE_NET
  | VALUE_ILLEGAL
  | VALUE_LOCALHOST
  | VALUE_PRIVATE
  | VALUE_LINK
  | VALUE_TESTNET
  | VALUE_6TO4
  | VALUE_MULTICAST
  | VALUE_RESERVED
  | VALUE_PUBLIC
  deriving Repr, DecidableEq

/-- The Python enum member name. -/
def IPv4BoundaryValue.memberName : IPv4BoundaryValue → String
  | .VALUE_HOST => "VALUE_HOST"
  | .VALUE_BROADCAST => "VALUE_BROADCAST"
  | .VALUE_NET => "VALUE_NET"
  | .VALUE_ILLEGAL => "VALUE_ILLEGAL"
  | .VALUE_LOCALHOST => "VALUE_LOCALHOST"
  | .VALUE_PRIVATE => "VALUE_PRIVATE"
  | .VALUE_LINK => "VALUE_LINK"
  | .VALUE_TESTNET => "VALUE_TESTNET"
  | .VALUE_6TO4 => "VALUE_6TO4"
  | .VALUE_MULTICAST => "VALUE_MULTICAST"
  | .VALUE_RESERVED => "VALUE_RESERVED"
  | .VALUE_PUBLIC => "VALUE_PUBLIC"

/-- `IPv4.BoundaryValue[s]`: enum lookup by member name. -/
def ipv4BoundaryValueOfName (s : String) : Option IPv4BoundaryValue :=
  if s = "VALUE_HOST" then some .VALUE_HOST
  else if s = "VALUE_BROADCAST" then some .VALUE_BROADCAST
  else if s = "VALUE_NET" then some .VALUE_NET
  else if s = "VALUE_ILLEGAL" then some .VALUE_ILLEGAL
  else if s = "VALUE_LOCALHOST" then some .VALUE_LOCALHOST
  else if s = "VALUE_PRIVATE" then some .VALUE_PRIVATE
  else if s = "VALUE_LINK" then some .VALUE_LINK
  else if s = "VALUE_TESTNET" then some .VALUE_TESTNET
  else if s = "VALUE_6TO4" then some .VALUE_6TO4
  else if s = "VALUE_MULTICAST" then some .VALUE_MULTICAST
  else if s = "VALUE_RESERVED" then some .VALUE_RESERVED
  else if s = "VALUE_PUBLIC" then some .VALUE_PUBLIC
  else none

/-- `__members__` iteration order of `IPv4.BoundaryValue`. -/
def ipv4BoundaryMembers : List IPv4BoundaryValue :=
  [.VALUE_HOST, .VALUE_BROADCAST, .VALUE_NET, .VALUE_ILLEGAL,
   .VALUE_LOCALHOST, .VALUE_PRIVATE, .VALUE_LINK, .VALUE_TESTNET,
   .VALUE_6TO4, .VALUE_MULTICAST, .VALUE_RESERVED, .VALUE_PUBLIC]

/-- `IPv4._construct_boundary_values` (IPv4.py 359-377): with a network
constraint the constraint-free tags are omitted, without one the
network-dependent tags (and broadcast) are; no size comparison occurs, so
this never raises. -/
def ipv4ConstructBoundaryValues (network : Option IPNetworkT) :
    List IPv4BoundaryValue :=
  let omitted : List IPv4BoundaryValue :=
    match network with
    | some _ =>
      [.VALUE_LOCALHOST, .VALUE_PRIVATE, .VALUE_LINK, .VALUE_TESTNET,
       .VALUE_6TO4, .VALUE_MULTICAST, .VALUE_RESERVED, .VALUE_PUBLIC]
    | none =>
      [.VALUE_HOST, .VALUE_BROADCAST, .VALUE_NET, .VALUE_ILLEGAL]
  ipv4BoundaryMembers.filter (fun x => decide (x ∉ omitted))

/-- `IPv4.concretize` (IPv4.py 397-463): the three network-dependent tags
first `assert self.network is not None`; the remaining tags draw from
fixed well-known ranges (`netPick` selects among the three test networks,
`hostPick` feeds each `random.choice` over a host list); the chosen
address's packed bytes are converted to bits, `value` is pinned,
`concretized` is set and self returned. With no selector key it raises
`ValueError`. -/
def ipv4Concretize (inst : IPv4T) (ca : List (String × String))
    (netPick : Nat) (hostPick : Nat) : Except PyErr IPv4T :=
  match ca.lookup "BoundaryValue" with
  | none => .error (.pyValueError "Could not construct IPv4, no valid spec in CA")
  | some s =>
    match ipv4BoundaryValueOfName s with
    | none => .error .pyKeyError
    | some tag => do
      let addr : Nat ←
        match tag, inst.network with
        | .VALUE_HOST, none => .error .pyAssertionError
        | .VALUE_NET, none => .error .pyAssertionError
        | .VALUE_ILLEGAL, none => .error .pyAssertionError
        | .VALUE_HOST, some net => chooseHost net hostPick
        | .VALUE_NET, some net => .ok (netBaseAddr net)
        | .VALUE_ILLEGAL, some net => chooseHost (netNext net) hostPick
        | .VALUE_LOCALHOST, _ => .ok 2130706433
        | .VALUE_PRIVATE, _ => chooseHost { addr := 3232235520, cidr := 16 } hostPick
        | .VALUE_LINK, _ => chooseHost { addr := 2851995648, cidr := 16 } hostPick
        | .VALUE_TESTNET, _ =>
          let net :=
            match netPick % 3 with
            | 0 => ({ addr := 3221225984, cidr := 24 } : IPNetworkT)
            | 1 => { addr := 3325256704, cidr := 24 }
            | _ => { addr := 3405803776, cidr := 24 }
          chooseHost net hostPick
        | .VALUE_6TO4, _ => chooseHost { addr := 3227017984, cidr := 24 } hostPick
        | .VALUE_MULTICAST, _ => chooseHost { addr := 3758096384, cidr := 16 } hostPick
        | .VALUE_RESERVED, _ => chooseHost { addr := 4026531840, cidr := 16 } hostPick
        | .VALUE_BROADCAST, some net => .ok (netBroadcast net)
        | .VALUE_BROADCAST, none => .ok 4294967295
        | .VALUE_PUBLIC, _ => chooseHost { addr := 220528640, cidr := 16 } hostPick
      .ok { inst with value := some (bytesToBits .big (packedBytes addr)),
                      concretized := true }

/-! Spec-side characterization of the boundary patterns and supporting
lemmas about the bit-level operations. -/

/-- The bit pattern the spec assigns to each deterministic boundary tag at
a given size: all zeros, all ones, only the first bit, only the last bit,
exactly the first `size / 2` bits, exactly the bits from `size / 2` on.
(The pattern listed under `VALUE_RAND` is unused: that tag is
characterized by being distinct from the six others.) -/
def specPattern (tag : GenBoundaryValue) (n : Nat) : List Bool :=
  List.ofFn (fun i : Fin n =>
    match tag with
    | .VALUE_NONE => false
    | .VALUE_ALL => true
    | .VALUE_MSB => decide (i.val = 0)
    | .VALUE_LSB => decide (i.val = n - 1)
    | .VALUE_TOPHALF => decide (i.val < n / 2)
    | .VALUE_BOTTOMHALF => decide (n / 2 ≤ i.val)
    | .VALUE_RAND => false)

/-- The six deterministic tags that `VALUE_RAND` must avoid. -/
def deterministicTags : List GenBoundaryValue :=
  [.VALUE_NONE, .VALUE_ALL, .VALUE_MSB, .VALUE_LSB,
   .VALUE_TOPHALF, .VALUE_BOTTOMHALF]

/-- The claim's defining predicate for a tag: a deterministic tag pins
exactly its pattern; `VALUE_RAND` pins a value of the right length that
differs from all six deterministic patterns. -/
def tagConforms (tag : GenBoundaryValue) (n : Nat) (v : List Bool) : Prop :=
  match tag with
  | .VALUE_RAND => v.length = n ∧ ∀ t ∈ deterministicTags, v ≠ specPattern t n
  | _ => v = specPattern tag n

theorem specPattern_length (tag : GenBoundaryValue) (n : Nat) :
    (specPattern tag n).length = n := by
  simp [specPattern]

theorem pySetall_replicate (n : Nat) (b c : Bool) :
    pySetall (List.replicate n b) c = List.replicate n c := by
  simp [pySetall]

theorem pySliceAssignTrue_length (v : List Bool) (a b : Nat) :
    (pySliceAssignTrue v a b).length = v.length := by
  induction v generalizing a b with
  | nil => rfl
  | cons x xs ih => simp [pySliceAssignTrue, ih]

theorem pySliceAssignTrue_getElem (v : List Bool) (a b i : Nat)
    (h : i < v.length) (h2 : i < (pySliceAssignTrue v a b).length) :
    (pySliceAssignTrue v a b)[i] =
      if a ≤ i ∧ i < b then true else v[i] := by
  induction v generalizing a b i with
  | nil => simp at h
  | cons x xs ih =>
    cases i with
    | zero =>
      simp only [pySliceAssignTrue, List.getElem_cons_zero]
      by_cases ha : a = 0
      · by_cases hb : 0 < b <;> simp [ha, hb]
      · have hna : ¬ a ≤ 0 := by omega
        simp [ha, hna]
    | succ j =>
      have hj : j < xs.length := by simpa using h
      have hj2 : j < (pySliceAssignTrue xs (a - 1) (b - 1)).length := by
        rw [pySliceAssignTrue_length]
        exact hj
      simp only [pySliceAssignTrue, List.getElem_cons_succ]
      rw [ih (a - 1) (b - 1) j hj hj2]
      have h1 : (a - 1 ≤ j ∧ j < b - 1) ↔ (a ≤ j + 1 ∧ j + 1 < b) := by omega
      by_cases hc : a ≤ j + 1 ∧ j + 1 < b
      · rw [if_pos (h1.mpr hc), if_pos hc]
      · have hx : ¬ (a - 1 ≤ j ∧ j < b - 1) := fun hy => hc (h1.mp hy)
        rw [if_neg hx, if_neg hc]

theorem specPattern_none (n : Nat) :
    specPattern .VALUE_NONE n = List.replicate n false := by
  simp [specPattern, List.ofFn_const]

theorem specPattern_all (n : Nat) :
    specPattern .VALUE_ALL n = List.replicate n true := by
  simp [specPattern, List.ofFn_const]

theorem specPattern_msb (n : Nat) :
    specPattern .VALUE_MSB n = (List.replicate n false).set 0 true := by
  apply List.ext_getElem
  · simp [specPattern]
  · intro i h1 h2
    simp only [specPattern, List.getElem_ofFn, List.getElem_set,
      List.getElem_replicate]
    have hi : i < n := by simpa [specPattern] using h1
    by_cases hz : i = 0 <;> simp [hz, eq_comm]

theorem specPattern_lsb (n : Nat) :
    specPattern .VALUE_LSB n = (List.replicate n false).set (n - 1) true := by
  apply List.ext_getElem
  · simp [specPattern]
  · intro i h1 h2
    simp only [specPattern, List.getElem_ofFn, List.getElem_set,
      List.getElem_replicate]
    have hi : i < n := by simpa [specPattern] using h1
    by_cases hz : i = n - 1 <;> simp [hz, eq_comm]

theorem specPattern_tophalf (n : Nat) :
    specPattern .VALUE_TOPHALF n =
      pySliceAssignTrue (List.replicate n false) 0 (n / 2) := by
  apply List.ext_getElem
  · simp [specPattern, pySliceAssignTrue_length]
  · intro i h1 h2
    have hi : i < n := by simpa [specPattern] using h1
    rw [pySliceAssignTrue_getElem (List.replicate n false) 0 (n / 2) i
      (by simpa using hi) h2]
    simp only [specPattern, List.getElem_ofFn, List.getElem_replicate]
    by_cases hc : i < n / 2 <;> simp [hc]

theorem specPattern_bottomhalf (n : Nat) :
    specPattern .VALUE_BOTTOMHALF n =
      pySliceAssignTrue (List.replicate n false) (n / 2) n := by
  apply List.ext_getElem
  · simp [specPattern, pySliceAssignTrue_length]
  · intro i h1 h2
    have hi : i < n := by simpa [specPattern] using h1
    rw [pySliceAssignTrue_getElem (List.replicate n false) (n / 2) n i
      (by simpa using hi) h2]
    simp only [specPattern, List.getElem_ofFn, List.getElem_replicate]
    by_cases hc : n / 2 ≤ i
    · simp [hc, hi]
    · simp [hc]

theorem drawBits_length (coin : Nat → Bool) (size k : Nat) :
    (drawBits coin size k).length = size := by
  simp [drawBits]

theorem rejectResample_ok (excluded : List (List Bool)) (coin : Nat → Bool)
    (size : Nat) (k fuel : Nat) (v : List Bool)
    (h : rejectResample excluded coin size k fuel = some v) :
    v ∉ excluded ∧ ∃ j, v = drawBits coin size j := by
  induction fuel generalizing k with
  | zero => simp [rejectResample] at h
  | succ m ih =>
    simp only [rejectResample] at h
    by_cases hmem : drawBits coin size k ∈ excluded
    · rw [if_pos hmem] at h
      exact ih (k + 1) h
    · rw [if_neg hmem] at h
      cases h
      exact ⟨hmem, k, rfl⟩

theorem buildExcluded_eq (n : Nat) (hn : 1 ≤ n) :
    buildExcluded n = .ok
      [specPattern .VALUE_NONE n, specPattern .VALUE_ALL n,
       specPattern .VALUE_MSB n, specPattern .VALUE_LSB n,
       specPattern .VALUE_TOPHALF n, specPattern .VALUE_BOTTOMHALF n] := by
  simp only [buildExcluded, pySetall_replicate, pySetIdxTrue, pySetLastTrue,
    List.length_replicate, if_pos (show (0 : Nat) < n by omega),
    if_pos (show n - 1 < n by omega)]
  rw [specPattern_none, specPattern_all, specPattern_msb n,
    specPattern_lsb n, specPattern_tophalf, specPattern_bottomhalf]
  rfl

/-- The deterministic branches of the shared value construction compute
exactly the spec patterns (the MSB/LSB branches need a nonempty target,
which catalog membership guarantees at the call sites). -/
theorem boundaryValueBits_det (n : Nat) (tag : GenBoundaryValue)
    (coin : Nat → Bool) (fuel : Nat) (hr : tag ≠ .VALUE_RAND)
    (hn : tag = .VALUE_MSB ∨ tag = .VALUE_LSB → 1 ≤ n) :
    boundaryValueBits n tag coin fuel = .ok (specPattern tag n) := by
  cases tag with
  | VALUE_NONE => simp [boundaryValueBits, pySetall_replicate, specPattern_none]
  | VALUE_ALL => simp [boundaryValueBits, pySetall_replicate, specPattern_all]
  | VALUE_MSB =>
    have h1 : 1 ≤ n := hn (Or.inl rfl)
    simp only [boundaryValueBits, pySetall_replicate, pySetIdxTrue,
      List.length_replicate]
    rw [if_pos (show (0 : Nat) < n by omega), specPattern_msb n]
  | VALUE_LSB =>
    have h1 : 1 ≤ n := hn (Or.inr rfl)
    simp only [boundaryValueBits, pySetall_replicate, pySetLastTrue,
      pySetIdxTrue, List.length_replicate]
    rw [if_pos (show n - 1 < n by omega), specPattern_lsb n]
  | VALUE_TOPHALF =>
    simp [boundaryValueBits, pySetall_replicate, specPattern_tophalf]
  | VALUE_BOTTOMHALF =>
    simp [boundaryValueBits, pySetall_replicate, specPattern_bottomhalf]
  | VALUE_RAND => exact absurd rfl hr

/-- What a successful `VALUE_RAND` construction guarantees: right length,
distinct from all six deterministic patterns. -/
theorem boundaryValueBits_rand (n : Nat) (coin : Nat → Bool) (fuel : Nat)
    (v : List Bool) (hn : 1 ≤ n)
    (h : boundaryValueBits n .VALUE_RAND coin fuel = .ok v) :
    v.length = n ∧ ∀ t ∈ deterministicTags, v ≠ specPattern t n := by
  rw [boundaryValueBits, buildExcluded_eq n hn] at h
  simp only [pyBindOk] at h
  cases hres : rejectResample
      [specPattern .VALUE_NONE n, specPattern .VALUE_ALL n,
       specPattern .VALUE_MSB n, specPattern .VALUE_LSB n,
       specPattern .VALUE_TOPHALF n, specPattern .VALUE_BOTTOMHALF n]
      coin n 0 fuel with
  | none => rw [hres] at h; exact absurd h (by simp)
  | some w =>
    rw [hres] at h
    have hw : w = v := by simpa using h
    subst hw
    obtain ⟨hnot, j, hj⟩ := rejectResample_ok _ coin n 0 fuel w hres
    constructor
    · rw [hj]; exact drawBits_length coin n j
    · intro t ht he
      apply hnot
      subst he
      fin_cases ht <;> simp

theorem genBoundaryValueOfName_memberName (tag : GenBoundaryValue) :
    genBoundaryValueOfName tag.memberName = some tag := by
  cases tag <;> rfl

theorem rawBoundaryValueOfName_memberName (tag : RawBoundaryValue) :
    rawBoundaryValueOfName tag.memberName = some tag := by
  cases tag <;> rfl

theorem ipv4BoundaryValueOfName_memberName (tag : IPv4BoundaryValue) :
    ipv4BoundaryValueOfName tag.memberName = some tag := by
  cases tag <;> rfl

/-- Size thresholds implied by membership in the BitArray/HexaString
catalog: the MSB/LSB tags require at least 2 bits and the random tag at
least 3 (the catalog omits them below those maxima). -/
theorem genCatalogThresholds (n : Nat) (tag : GenBoundaryValue)
    (cat : List GenBoundaryValue)
    (hc : bitArrayConstructBoundaryValues (some n) = .ok cat)
    (ht : tag ∈ cat) :
    (tag = .VALUE_MSB ∨ tag = .VALUE_LSB → 2 ≤ n) ∧
    (tag = .VALUE_RAND → 3 ≤ n) := by
  simp only [bitArrayConstructBoundaryValues, Except.ok.injEq] at hc
  subst hc
  have hno := of_decide_eq_true (List.mem_filter.mp ht).2
  constructor
  · rintro (rfl | rfl) <;>
    · by_contra hlt
      apply hno
      rw [if_pos (show n < 4 by omega), if_pos (show n < 3 by omega),
        if_pos (show n < 2 by omega)]
      simp
  · rintro rfl
    by_contra hlt
    apply hno
    rw [if_pos (show n < 4 by omega), if_pos (show n < 3 by omega)]
    rcases Nat.lt_or_ge n 2 with h2 | h2
    · rw [if_pos h2]; simp
    · rw [if_neg (show ¬ n < 2 by omega)]; simp

theorem rawGenericOf_msb (tag : RawBoundaryValue)
    (h : rawGenericOf tag = some .VALUE_MSB) : tag = .VALUE_MSB := by
  cases tag <;> simp_all [rawGenericOf]

theorem rawGenericOf_lsb (tag : RawBoundaryValue)
    (h : rawGenericOf tag = some .VALUE_LSB) : tag = .VALUE_LSB := by
  cases tag <;> simp_all [rawGenericOf]

theorem rawGenericOf_rand (tag : RawBoundaryValue)
    (h : rawGenericOf tag = some .VALUE_RAND) : tag = .VALUE_RAND := by
  cases tag <;> simp_all [rawGenericOf]

/-- With no alphabet, every tag in the Raw catalog is one of the seven
generic tags, under the same 2-bit and 3-bit thresholds as BitArray. -/
theorem rawCatalogThresholds (n usz : Nat) (tag : RawBoundaryValue)
    (cat : List RawBoundaryValue)
    (hc : rawConstructBoundaryValues none usz (some n) = .ok cat)
    (ht : tag ∈ cat) :
    (∃ g, rawGenericOf tag = some g) ∧
    (tag = .VALUE_MSB ∨ tag = .VALUE_LSB → 2 ≤ n) ∧
    (tag = .VALUE_RAND → 3 ≤ n) := by
  simp only [rawConstructBoundaryValues, Except.ok.injEq] at hc
  subst hc
  have hno := of_decide_eq_true (List.mem_filter.mp ht).2
  refine ⟨?_, ?_, ?_⟩
  · cases tag <;> first
      | exact ⟨_, rfl⟩
      | (exfalso; apply hno; simp)
  · rintro (rfl | rfl) <;>
    · by_contra hlt
      apply hno
      rw [if_pos (show n < 4 by omega), if_pos (show n < 3 by omega),
        if_pos (show n < 2 by omega)]
      simp
  · rintro rfl
    by_contra hlt
    apply hno
    rw [if_pos (show n < 4 by omega), if_pos (show n < 3 by omega)]
    rcases Nat.lt_or_ge n 2 with h2 | h2
    · rw [if_pos h2]; simp
    · rw [if_neg (show ¬ n < 2 by omega)]; simp

theorem abstractConcretizeSize_closed (n : Nat) (ca : List (String × String)) :
    abstractConcretizeSize (some n) (some n) ca false = .ok n := by
  simp [abstractConcretizeSize]

/-- `BitArray.concretize` on a closed n-bit range, driven by a tag from
its applicable catalog: a deterministic tag pins exactly the tag's
pattern and sets the flag; any successful outcome (including the random
tag) pins a value of length n satisfying the tag's defining predicate. -/
theorem bitArrayConcretizeTagged (n : Nat) (tag : GenBoundaryValue)
    (coin : Nat → Bool) (fuel : Nat) (v0 : Option (List Bool)) (c0 : Bool)
    (ca : List (String × String)) (cat : List GenBoundaryValue)
    (hc : bitArrayConstructBoundaryValues (some n) = .ok cat)
    (ht : tag ∈ cat)
    (hl : ca.lookup "BoundaryValue" = some tag.memberName) :
    (∀ b, bitArrayConcretize ⟨some n, some n, v0, c0⟩ ca coin fuel = .ok b →
        ∃ v, b.value = some v ∧ v.length = n ∧ tagConforms tag n v)
    ∧ (tag ≠ .VALUE_RAND →
        bitArrayConcretize ⟨some n, some n, v0, c0⟩ ca coin fuel =
          .ok ⟨some n, some n, some (specPattern tag n), true⟩) := by
  obtain ⟨hml, hrand⟩ := genCatalogThresholds n tag cat hc ht
  have hun : bitArrayConcretize ⟨some n, some n, v0, c0⟩ ca coin fuel =
      Bind.bind (boundaryValueBits n tag coin fuel)
        (fun v => Except.ok ⟨some n, some n, some v, true⟩) := by
    rw [bitArrayConcretize, abstractConcretizeSize_closed, pyBindOk, hl]
    simp [genBoundaryValueOfName_memberName]
  constructor
  · intro b hb
    rw [hun] at hb
    cases hbv : boundaryValueBits n tag coin fuel with
    | error e => rw [hbv, pyBindError] at hb; exact absurd hb (by simp)
    | ok v =>
      rw [hbv, pyBindOk] at hb
      have hbeq : b = ⟨some n, some n, some v, true⟩ := by
        simpa using hb.symm
      subst hbeq
      refine ⟨v, rfl, ?_⟩
      by_cases hr : tag = .VALUE_RAND
      · subst hr
        have := boundaryValueBits_rand n coin fuel v
          (by have := hrand rfl; omega) hbv
        exact ⟨this.1, this⟩
      · rw [boundaryValueBits_det n tag coin fuel hr
          (fun h => by have := hml h; omega)] at hbv
        have hv : v = specPattern tag n := by simpa using hbv.symm
        subst hv
        refine ⟨specPattern_length tag n, ?_⟩
        cases tag <;> first
          | exact absurd rfl hr
          | rfl
  · intro hr
    rw [hun, boundaryValueBits_det n tag coin fuel hr
      (fun h => by have := hml h; omega), pyBindOk]

/-- `HexaString.concretize` under the same driving conditions; the
construction code is the identical copy, so the same conclusions hold. -/
theorem hexaStringConcretizeTagged (n : Nat) (tag : GenBoundaryValue)
    (coin : Nat → Bool) (fuel : Nat) (v0 : Option (List Bool)) (c0 : Bool)
    (ca : List (String × String)) (cat : List GenBoundaryValue)
    (hc : hexaStringConstructBoundaryValues (some n) = .ok cat)
    (ht : tag ∈ cat)
    (hl : ca.lookup "BoundaryValue" = some tag.memberName) :
    (∀ b, hexaStringConcretize ⟨some n, some n, v0, c0⟩ ca coin fuel = .ok b →
        ∃ v, b.value = some v ∧ v.length = n ∧ tagConforms tag n v)
    ∧ (tag ≠ .VALUE_RAND →
        hexaStringConcretize ⟨some n, some n, v0, c0⟩ ca coin fuel =
          .ok ⟨some n, some n, some (specPattern tag n), true⟩) := by
  have hc2 : bitArrayConstructBoundaryValues (some n) = .ok cat := hc
  obtain ⟨hml, hrand⟩ := genCatalogThresholds n tag cat hc2 ht
  have hun : hexaStringConcretize ⟨some n, some n, v0, c0⟩ ca coin fuel =
      Bind.bind (boundaryValueBits n tag coin fuel)
        (fun v => Except.ok ⟨some n, some n, some v, true⟩) := by
    rw [hexaStringConcretize, abstractConcretizeSize_closed, pyBindOk, hl]
    simp [genBoundaryValueOfName_memberName]
  constructor
  · intro b hb
    rw [hun] at hb
    cases hbv : boundaryValueBits n tag coin fuel with
    | error e => rw [hbv, pyBindError] at hb; exact absurd hb (by simp)
    | ok v =>
      rw [hbv, pyBindOk] at hb
      have hbeq : b = ⟨some n, some n, some v, true⟩ := by
        simpa using hb.symm
      subst hbeq
      refine ⟨v, rfl, ?_⟩
      by_cases hr : tag = .VALUE_RAND
      · subst hr
        have := boundaryValueBits_rand n coin fuel v
          (by have := hrand rfl; omega) hbv
        exact ⟨this.1, this⟩
      · rw [boundaryValueBits_det n tag coin fuel hr
          (fun h => by have := hml h; omega)] at hbv
        have hv : v = specPattern tag n := by simpa using hbv.symm
        subst hv
        refine ⟨specPattern_length tag n, ?_⟩
        cases tag <;> first
          | exact absurd rfl hr
          | rfl
  · intro hr
    rw [hun, boundaryValueBits_det n tag coin fuel hr
      (fun h => by have := hml h; omega), pyBindOk]

/-- `Raw.concretize` (no alphabet) under the same driving conditions:
every applicable tag is generic and behaves exactly as for BitArray —
except that `concretized` stays untouched (Raw.py 372-374). -/
theorem rawConcretizeTagged (n usz : Nat) (tag : RawBoundaryValue)
    (g : GenBoundaryValue) (coin : Nat → Bool)
    (alphaPick bytePick : Nat → Nat)
    (lenPick fuel : Nat) (v0 : Option (List Bool)) (c0 : Bool)
    (ca : List (String × String)) (cat : List RawBoundaryValue)
    (hc : rawConstructBoundaryValues none usz (some n) = .ok cat)
    (ht : tag ∈ cat) (hg : rawGenericOf tag = some g)
    (hl : ca.lookup "BoundaryValue" = some tag.memberName) :
    (∀ b, rawConcretize ⟨some n, some n, v0, c0, none, usz⟩ ca coin
            alphaPick bytePick lenPick fuel = .ok b →
        ∃ v, b.value = some v ∧ v.length = n ∧ tagConforms g n v)
    ∧ (g ≠ .VALUE_RAND →
        rawConcretize ⟨some n, some n, v0, c0, none, usz⟩ ca coin
            alphaPick bytePick lenPick fuel =
          .ok ⟨some n, some n, some (specPattern g n), c0, none, usz⟩) := by
  obtain ⟨hgen, hml, hrand⟩ := rawCatalogThresholds n usz tag cat hc ht
  have hml2 : g = .VALUE_MSB ∨ g = .VALUE_LSB → 2 ≤ n := fun h =>
    hml (h.imp (fun e => rawGenericOf_msb tag (by rw [hg, e]))
      (fun e => rawGenericOf_lsb tag (by rw [hg, e])))
  have hrand2 : g = .VALUE_RAND → 3 ≤ n := fun e =>
    hrand (rawGenericOf_rand tag (by rw [hg, e]))
  have hun : rawConcretize ⟨some n, some n, v0, c0, none, usz⟩ ca coin
      alphaPick bytePick lenPick fuel =
      Bind.bind (boundaryValueBits n g coin fuel)
        (fun v => Except.ok ⟨some n, some n, some v, c0, none, usz⟩) := by
    rw [rawConcretize]
    have hsz : abstractConcretizeSize (some n) (some n) ca
        (Option.isSome (none : Option (List Nat))) = .ok n := by
      simp [abstractConcretizeSize]
    rw [hsz, pyBindOk, hl]
    simp [rawBoundaryValueOfName_memberName, hg]
  constructor
  · intro b hb
    rw [hun] at hb
    cases hbv : boundaryValueBits n g coin fuel with
    | error e => rw [hbv, pyBindError] at hb; exact absurd hb (by simp)
    | ok v =>
      rw [hbv, pyBindOk] at hb
      have hbeq : b = ⟨some n, some n, some v, c0, none, usz⟩ := by
        simpa using hb.symm
      subst hbeq
      refine ⟨v, rfl, ?_⟩
      by_cases hr : g = .VALUE_RAND
      · subst hr
        have := boundaryValueBits_rand n coin fuel v
          (by have := hrand2 rfl; omega) hbv
        exact ⟨this.1, this⟩
      · rw [boundaryValueBits_det n g coin fuel hr
          (fun h => by have := hml2 h; omega)] at hbv
        have hv : v = specPattern g n := by simpa using hbv.symm
        subst hv
        refine ⟨specPattern_length g n, ?_⟩
        cases g <;> first
          | exact absurd rfl hr
          | rfl
  · intro hr
    rw [hun, boundaryValueBits_det n g coin fuel hr
      (fun h => by have := hml2 h; omega), pyBindOk]

/-- C1: for every type variant (bit-string, hex-text, byte-buffer) and
every boundary tag present in its applicable catalog, concretize driven by
a column-value mapping selecting that tag pins a value whose bit length
equals the resolved target size and whose content satisfies the tag's
defining predicate (all bits 0 / all bits 1 / only the first bit / only
the last bit / exactly the first half / exactly the second half / distinct
from all six of those patterns for the random tag). Deterministic tags
always succeed with exactly their pattern; the random tag's
reject-and-resample loop guarantees the predicate on every value it
returns. -/
theorem C1_concretize_pins_tagged_value :
    (∀ (n : Nat) (tag : GenBoundaryValue) (coin : Nat → Bool) (fuel : Nat)
       (v0 : Option (List Bool)) (c0 : Bool) (ca : List (String × String))
       (cat : List GenBoundaryValue),
       bitArrayConstructBoundaryValues (some n) = .ok cat → tag ∈ cat →
       ca.lookup "BoundaryValue" = some tag.memberName →
       (∀ b, bitArrayConcretize ⟨some n, some n, v0, c0⟩ ca coin fuel = .ok b →
           ∃ v, b.value = some v ∧ v.length = n ∧ tagConforms tag n v) ∧
       (tag ≠ .VALUE_RAND →
         bitArrayConcretize ⟨some n, some n, v0, c0⟩ ca coin fuel =
           .ok ⟨some n, some n, some (specPattern tag n), true⟩)) ∧
    (∀ (n : Nat) (tag : GenBoundaryValue) (coin : Nat → Bool) (fuel : Nat)
       (v0 : Option (List Bool)) (c0 : Bool) (ca : List (String × String))
       (cat : List GenBoundaryValue),
       hexaStringConstructBoundaryValues (some n) = .ok cat → tag ∈ cat →
       ca.lookup "BoundaryValue" = some tag.memberName →
       (∀ h, hexaStringConcretize ⟨some n, some n, v0, c0⟩ ca coin fuel = .ok h →
           ∃ v, h.value = some v ∧ v.length = n ∧ tagConforms tag n v) ∧
       (tag ≠ .VALUE_RAND →
         hexaStringConcretize ⟨some n, some n, v0, c0⟩ ca coin fuel =
           .ok ⟨some n, some n, some (specPattern tag n), true⟩)) ∧
    (∀ (n usz : Nat) (tag : RawBoundaryValue) (g : GenBoundaryValue)
       (coin : Nat → Bool) (alphaPick bytePick : Nat → Nat)
       (lenPick fuel : Nat) (v0 : Option (List Bool)) (c0 : Bool)
       (ca : List (String × String)) (cat : List RawBoundaryValue),
       rawConstructBoundaryValues none usz (some n) = .ok cat → tag ∈ cat →
       rawGenericOf tag = some g →
       ca.lookup "BoundaryValue" = some tag.memberName →
       (∀ b, rawConcretize ⟨some n, some n, v0, c0, none, usz⟩ ca coin
               alphaPick bytePick lenPick fuel = .ok b →
           ∃ v, b.value = some v ∧ v.length = n ∧ tagConforms g n v) ∧
       (g ≠ .VALUE_RAND →
         rawConcretize ⟨some n, some n, v0, c0, none, usz⟩ ca coin
             alphaPick bytePick lenPick fuel =
           .ok ⟨some n, some n, some (specPattern g n), c0, none, usz⟩)) := by
  refine ⟨?_, ?_, ?_⟩
  · intro n tag coin fuel v0 c0 ca cat hc ht hl
    exact bitArrayConcretizeTagged n tag coin fuel v0 c0 ca cat hc ht hl
  · intro n tag coin fuel v0 c0 ca cat hc ht hl
    exact hexaStringConcretizeTagged n tag coin fuel v0 c0 ca cat hc ht hl
  · intro n usz tag g coin alphaPick bytePick lenPick fuel v0 c0 ca cat hc ht hg hl
    exact rawConcretizeTagged n usz tag g coin alphaPick bytePick lenPick fuel
      v0 c0 ca cat hc ht hg hl

/-- Witness for C1: an 8-bit BitArray concretized with the MSB tag pins
exactly the 1000 0000 pattern and sets the flag. -/
theorem C1_witness :
    bitArrayConcretize ⟨some 8, some 8, none, false⟩
        [("BoundaryValue", "VALUE_MSB")] (fun _ => false) 1 =
      .ok ⟨some 8, some 8, some (specPattern .VALUE_MSB 8), true⟩ :=
  (C1_concretize_pins_tagged_value.1 8 .VALUE_MSB (fun _ => false) 1 none false
    [("BoundaryValue", "VALUE_MSB")] genBoundaryMembers
    (by rfl) (by decide) (by rfl)).2 (by decide)

/-- C2 counterexample: concretize with a selector-free column-value
mapping fails with Python's generic built-in `ValueError` in all four
variants — the codebase defines no distinct domain-error class (the
embedding's `PyErr` mirrors every class the excerpt can raise, and has no
constraint-error constructor because no such class exists in the source),
so the claim that the failure is "a distinct, named domain error, not a
generic exception" is false. -/
theorem C2_counterexample :
    bitArrayConcretize ⟨some 8, some 8, none, false⟩ [] (fun _ => false) 1 =
        .error (.pyValueError "Could not construct BitArray, no valid spec in CA") ∧
    hexaStringConcretize ⟨some 8, some 8, none, false⟩ [] (fun _ => false) 1 =
        .error (.pyValueError "Could not construct HexaString, no valid spec in CA") ∧
    rawConcretize ⟨some 8, some 8, none, false, none, 8⟩ [] (fun _ => false)
        (fun _ => 0) (fun _ => 0) 0 1 =
        .error (.pyValueError "Could not construct Raw, no valid spec in CA") ∧
    ipv4Concretize ⟨none, none, false⟩ [] 0 0 =
        .error (.pyValueError "Could not construct IPv4, no valid spec in CA") := by
  refine ⟨rfl, rfl, rfl, rfl⟩

theorem abstractConcretizeSize_closed_align (n : Nat)
    (ca : List (String × String)) (al : Bool) :
    abstractConcretizeSize (some n) (some n) ca al =
      .ok (if al then 8 * ((n + 7) / 8) else n) := by
  simp [abstractConcretizeSize]

/-- C2 amended: for every variant, concretize with a column-value mapping
lacking the `BoundaryValue` selector key fails by raising — but with
Python's generic built-in `ValueError` (message "Could not construct
<Type>, no valid spec in CA"), not a distinct named domain-error class —
and produces no updated instance, so the `concretized` flag stays unset. -/
theorem C2_amended_missing_selector_raises_valueerror :
    ∀ (n : Nat) (v0 : Option (List Bool)) (c0 : Bool)
      (alpha : Option (List Nat)) (usz : Nat) (ip0 : Option (List Bool))
      (nw : Option IPNetworkT) (ca : List (String × String))
      (coin : Nat → Bool) (alphaPick bytePick : Nat → Nat)
      (lenPick fuel netPick hostPick : Nat),
      ca.lookup "BoundaryValue" = none →
      bitArrayConcretize ⟨some n, some n, v0, c0⟩ ca coin fuel =
          .error (.pyValueError "Could not construct BitArray, no valid spec in CA") ∧
      hexaStringConcretize ⟨some n, some n, v0, c0⟩ ca coin fuel =
          .error (.pyValueError "Could not construct HexaString, no valid spec in CA") ∧
      rawConcretize ⟨some n, some n, v0, c0, alpha, usz⟩ ca coin
          alphaPick bytePick lenPick fuel =
          .error (.pyValueError "Could not construct Raw, no valid spec in CA") ∧
      ipv4Concretize ⟨ip0, nw, c0⟩ ca netPick hostPick =
          .error (.pyValueError "Could not construct IPv4, no valid spec in CA") := by
  intro n v0 c0 alpha usz ip0 nw ca coin alphaPick bytePick lenPick fuel
    netPick hostPick hl
  refine ⟨?_, ?_, ?_, ?_⟩
  · rw [bitArrayConcretize, abstractConcretizeSize_closed, pyBindOk, hl]
  · rw [hexaStringConcretize, abstractConcretizeSize_closed, pyBindOk, hl]
  · rw [rawConcretize, abstractConcretizeSize_closed_align, pyBindOk, hl]
  · rw [ipv4Concretize, hl]

/-- Witness for C2's amended theorem at a concrete instance and an empty
column-value mapping. -/
theorem C2_witness :
    bitArrayConcretize ⟨some 4, some 4, none, false⟩
        [("Other", "x")] (fun _ => true) 2 =
      .error (.pyValueError "Could not construct BitArray, no valid spec in CA") :=
  (C2_amended_missing_selector_raises_valueerror 4 none false none 8 none none
    [("Other", "x")] (fun _ => true) (fun _ => 0) (fun _ => 0) 0 2 0 0
    (by decide)).1

/-- C3 counterexample: constructing an IPv4 with BOTH an exact-value
constraint ("192.168.0.10") and a network-membership constraint
("192.168.0.0/24") succeeds — `IPv4.__init__` stores both and rejects
nothing — refuting the claim that the combination is rejected at
construction time. -/
theorem C3_counterexample :
    ipv4New (some (PyData.pyStr "192.168.0.10".toList))
        (some "192.168.0.0/24".toList) .unsigned =
      .ok ⟨some (bytesToBits .big [192, 168, 0, 10]),
           some ⟨3232235520, 24⟩, false⟩ := by
  decide

/-- C3 amended: supplying both an exact-value and a network constraint is
accepted at construction time; the constructor stores both on the
instance (the exact-value constraint then simply takes priority inside
canParse, and neither constructor nor concretize ever rejects the
combination). -/
theorem C3_amended_both_constraints_accepted :
    ∀ (l : List Bool) (nwLit : List Char) (nt : IPNetworkT) (sgn : SignT),
      parseIPNetwork nwLit = some nt →
      ipv4New (some (PyData.pyBits l)) (some nwLit) sgn =
        .ok ⟨some l, some nt, false⟩ := by
  intro l nwLit nt sgn hp
  rw [ipv4New]
  simp only [pyPureOk, pyBindOk, ipv4NetworkSetter, hp]

/-- Witness for C3's amended theorem: a concrete 32-bit pinned value plus
the network 10.0.0.0/8 are both stored. -/
theorem C3_witness :
    ipv4New (some (PyData.pyBits (List.replicate 32 true)))
        (some "10.0.0.0/8".toList) .unsigned =
      .ok ⟨some (List.replicate 32 true), some ⟨167772160, 8⟩, false⟩ :=
  C3_amended_both_constraints_accepted (List.replicate 32 true)
    "10.0.0.0/8".toList ⟨167772160, 8⟩ .unsigned (by decide)

/-- C4: on an IPv4 instance with no configured network, concretize with a
selector naming a network-dependent tag (VALUE_HOST, VALUE_NET or
VALUE_ILLEGAL) fails — the `assert self.network is not None` precondition
raises `AssertionError` — and never produces a value. -/
theorem C4_network_tags_require_network :
    ∀ (v0 : Option (List Bool)) (c0 : Bool) (ca : List (String × String))
      (netPick hostPick : Nat) (tag : IPv4BoundaryValue),
      tag = .VALUE_HOST ∨ tag = .VALUE_NET ∨ tag = .VALUE_ILLEGAL →
      ca.lookup "BoundaryValue" = some tag.memberName →
      ipv4Concretize ⟨v0, none, c0⟩ ca netPick hostPick =
        .error .pyAssertionError := by
  intro v0 c0 ca netPick hostPick tag htag hl
  rw [ipv4Concretize, hl]
  rcases htag with rfl | rfl | rfl <;>
    simp [ipv4BoundaryValueOfName_memberName, pyBindError]

/-- Witness for C4: the VALUE_HOST tag on a network-free instance. -/
theorem C4_witness :
    ipv4Concretize ⟨none, none, false⟩ [("BoundaryValue", "VALUE_HOST")] 0 0 =
      .error .pyAssertionError :=
  C4_network_tags_require_network none false
    [("BoundaryValue", "VALUE_HOST")] 0 0 .VALUE_HOST (Or.inl rfl)
    (by decide)

/-- C5 (code bug evidence): a successful concretize pins `value` and
returns self in all four variants, and BitArray, HexaString and IPv4 also
set `concretized := true` — but `Raw.concretize` returns with the flag
still false (Raw.py 372-374 assigns only `self.value`), diverging from the
claimed contract and from its three sibling variants. -/
theorem C5_raw_concretize_leaves_flag_unset :
    rawConcretize ⟨some 8, some 8, none, false, none, 8⟩
        [("BoundaryValue", "VALUE_NONE")] (fun _ => false)
        (fun _ => 0) (fun _ => 0) 0 1 =
      .ok ⟨some 8, some 8, some (List.replicate 8 false), false, none, 8⟩ ∧
    bitArrayConcretize ⟨some 8, some 8, none, false⟩
        [("BoundaryValue", "VALUE_NONE")] (fun _ => false) 1 =
      .ok ⟨some 8, some 8, some (List.replicate 8 false), true⟩ ∧
    hexaStringConcretize ⟨some 8, some 8, none, false⟩
        [("BoundaryValue", "VALUE_NONE")] (fun _ => false) 1 =
      .ok ⟨some 8, some 8, some (List.replicate 8 false), true⟩ ∧
    ipv4Concretize ⟨none, none, false⟩
        [("BoundaryValue", "VALUE_LOCALHOST")] 0 0 =
      .ok ⟨some (bytesToBits .big (packedBytes 2130706433)), none, true⟩ := by
  refine ⟨by decide, by decide, by decide, by decide⟩

/-- C7: the generic bit-oriented tags are omitted from the applicable
catalog progressively as the maximum size shrinks: below 4 bits the
top-half tag is gone, below 3 bits the bottom-half and random tags, and
below 2 bits the MSB and LSB tags — for the bit-string, hex-text and
byte-buffer variants alike (for an alphabet byte-buffer the generic tags
are absent at every size, so the absences hold a fortiori). -/
theorem C7_catalog_omission_thresholds :
    ∀ (m usz : Nat) (alpha : Option (List Nat))
      (cat1 cat2 : List GenBoundaryValue) (catR : List RawBoundaryValue),
      (bitArrayConstructBoundaryValues (some m) = .ok cat1 →
        (m < 2 → .VALUE_MSB ∉ cat1 ∧ .VALUE_LSB ∉ cat1) ∧
        (m < 3 → .VALUE_BOTTOMHALF ∉ cat1 ∧ .VALUE_RAND ∉ cat1) ∧
        (m < 4 → .VALUE_TOPHALF ∉ cat1)) ∧
      (hexaStringConstructBoundaryValues (some m) = .ok cat2 →
        (m < 2 → .VALUE_MSB ∉ cat2 ∧ .VALUE_LSB ∉ cat2) ∧
        (m < 3 → .VALUE_BOTTOMHALF ∉ cat2 ∧ .VALUE_RAND ∉ cat2) ∧
        (m < 4 → .VALUE_TOPHALF ∉ cat2)) ∧
      (rawConstructBoundaryValues alpha usz (some m) = .ok catR →
        (m < 2 → RawBoundaryValue.VALUE_MSB ∉ catR ∧
                 RawBoundaryValue.VALUE_LSB ∉ catR) ∧
        (m < 3 → RawBoundaryValue.VALUE_BOTTOMHALF ∉ catR ∧
                 RawBoundaryValue.VALUE_RAND ∉ catR) ∧
        (m < 4 → RawBoundaryValue.VALUE_TOPHALF ∉ catR)) := by
  intro m usz alpha cat1 cat2 catR
  have hgen : ∀ cat : List GenBoundaryValue,
      bitArrayConstructBoundaryValues (some m) = .ok cat →
      (m < 2 → .VALUE_MSB ∉ cat ∧ .VALUE_LSB ∉ cat) ∧
      (m < 3 → .VALUE_BOTTOMHALF ∉ cat ∧ .VALUE_RAND ∉ cat) ∧
      (m < 4 → .VALUE_TOPHALF ∉ cat) := by
    intro cat hc
    simp only [bitArrayConstructBoundaryValues, Except.ok.injEq] at hc
    subst hc
    refine ⟨fun h2 => ⟨?_, ?_⟩, fun h3 => ⟨?_, ?_⟩, fun h4 => ?_⟩ <;>
    · intro hmem
      have hno := of_decide_eq_true (List.mem_filter.mp hmem).2
      apply hno
      rw [if_pos (show m < 4 by omega)]
      rcases Nat.lt_or_ge m 3 with hc3 | hc3
      · rw [if_pos hc3]
        rcases Nat.lt_or_ge m 2 with hc2 | hc2
        · rw [if_pos hc2]; simp_all
        · rw [if_neg (show ¬ m < 2 by omega)]; simp_all
      · rw [if_neg (show ¬ m < 3 by omega)]
        rcases Nat.lt_or_ge m 2 with hc2 | hc2
        · rw [if_pos hc2]; simp_all
        · rw [if_neg (show ¬ m < 2 by omega)]; simp_all
  refine ⟨hgen cat1, hgen cat2, ?_⟩
  intro hc
  simp only [rawConstructBoundaryValues, Except.ok.injEq] at hc
  subst hc
  cases alpha with
  | some a =>
    refine ⟨fun h2 => ⟨?_, ?_⟩, fun h3 => ⟨?_, ?_⟩, fun h4 => ?_⟩ <;>
    · intro hmem
      have hno := of_decide_eq_true (List.mem_filter.mp hmem).2
      apply hno
      refine List.mem_append.mpr (Or.inl ?_)
      refine List.mem_append.mpr (Or.inl ?_)
      simp
  | none =>
    refine ⟨fun h2 => ⟨?_, ?_⟩, fun h3 => ⟨?_, ?_⟩, fun h4 => ?_⟩ <;>
    · intro hmem
      have hno := of_decide_eq_true (List.mem_filter.mp hmem).2
      apply hno
      rw [if_pos (show m < 4 by omega)]
      rcases Nat.lt_or_ge m 3 with hc3 | hc3
      · rw [if_pos hc3]
        rcases Nat.lt_or_ge m 2 with hc2 | hc2
        · rw [if_pos hc2]; simp_all
        · rw [if_neg (show ¬ m < 2 by omega)]; simp_all
      · rw [if_neg (show ¬ m < 3 by omega)]
        rcases Nat.lt_or_ge m 2 with hc2 | hc2
        · rw [if_pos hc2]; simp_all
        · rw [if_neg (show ¬ m < 2 by omega)]; simp_all

/-- Witness for C7: at a 1-bit maximum, the bit-string catalog is exactly
the two surviving tags, with MSB and LSB absent. -/
theorem C7_witness :
    bitArrayConstructBoundaryValues (some 1) =
        .ok [.VALUE_NONE, .VALUE_ALL] ∧
    (GenBoundaryValue.VALUE_MSB ∉ [GenBoundaryValue.VALUE_NONE,
        GenBoundaryValue.VALUE_ALL] ∧
     GenBoundaryValue.VALUE_LSB ∉ [GenBoundaryValue.VALUE_NONE,
        GenBoundaryValue.VALUE_ALL]) :=
  ⟨by rfl,
   ((C7_catalog_omission_thresholds 1 8 none [.VALUE_NONE, .VALUE_ALL]
      [] []).1 (by rfl)).1 (by decide)⟩

/-- C9 counterexample: with configured bounds `[0, 0]` and the empty bit
sequence — whose length matches both bounds exactly — `canParse` returns
false (the empty-data check fires first), refuting "returns true when the
data's length exactly matches the bounds". -/
theorem C9_counterexample :
    bitArrayCanParse ⟨some 0, some 0, none, false⟩ (some (PyData.pyBits [])) =
        .ok false ∧
    (List.nil : List Bool).length = 0 := by
  exact ⟨rfl, rfl⟩

/-- C9 amended: for configured bounds `[min, max]`, `canParse` on a bit
sequence returns false when the data is shorter than min or longer than
max, and returns true when the data is NONEMPTY and its length lies within
the bounds (in particular when it matches them exactly); emptiness is
rejected first, regardless of the bounds. -/
theorem C9_amended_bitarray_canparse_bounds :
    ∀ (mn mx : Nat) (l : List Bool) (v0 : Option (List Bool)) (c0 : Bool),
      (l.length < mn →
        bitArrayCanParse ⟨some mn, some mx, v0, c0⟩ (some (PyData.pyBits l)) =
          .ok false) ∧
      (mx < l.length →
        bitArrayCanParse ⟨some mn, some mx, v0, c0⟩ (some (PyData.pyBits l)) =
          .ok false) ∧
      (l ≠ [] → mn ≤ l.length → l.length ≤ mx →
        bitArrayCanParse ⟨some mn, some mx, v0, c0⟩ (some (PyData.pyBits l)) =
          .ok true) := by
  intro mn mx l v0 c0
  refine ⟨?_, ?_, ?_⟩
  · intro hlt
    rw [bitArrayCanParse]
    by_cases h0 : l.length = 0
    · rw [if_pos h0]
    · rw [if_neg h0]
      simp only
      rw [if_pos (by simpa using hlt)]
  · intro hgt
    rw [bitArrayCanParse]
    by_cases h0 : l.length = 0
    · rw [if_pos h0]
    · rw [if_neg h0]
      simp only
      by_cases hmn : mn > l.length
      · rw [if_pos (by simpa using hmn)]
      · rw [if_neg (by simpa using hmn), if_pos (by simpa using hgt)]
  · intro hne hmn hmx
    rw [bitArrayCanParse]
    have h0 : l.length ≠ 0 := by simpa using List.length_pos.mpr hne |>.ne'
    rw [if_neg h0]
    simp only
    rw [if_neg (by simp; omega), if_neg (by simp; omega)]

/-- Witness for C9's amended theorem: an 8-bit sequence against bounds
`[8, 8]` parses; the same against `[9, 16]` and `[1, 7]` does not. -/
theorem C9_witness :
    bitArrayCanParse ⟨some 8, some 8, none, false⟩
        (some (PyData.pyBits (List.replicate 8 true))) = .ok true ∧
    bitArrayCanParse ⟨some 9, some 16, none, false⟩
        (some (PyData.pyBits (List.replicate 8 true))) = .ok false ∧
    bitArrayCanParse ⟨some 1, some 7, none, false⟩
        (some (PyData.pyBits (List.replicate 8 true))) = .ok false :=
  ⟨(C9_amended_bitarray_canparse_bounds 8 8 (List.replicate 8 true) none
      false).2.2 (by decide) (by decide) (by decide),
   (C9_amended_bitarray_canparse_bounds 9 16 (List.replicate 8 true) none
      false).1 (by decide),
   (C9_amended_bitarray_canparse_bounds 1 7 (List.replicate 8 true) none
      false).2.1 (by decide)⟩

/-- C10: with an unset (None) maximum size bound, the boundary-catalog
construction of the bit-string, hex-text and byte-buffer variants does not
return a catalog: the omission logic's very first comparison of the unset
maximum against an int threshold raises `TypeError` (Python 3 rejects
ordering None against int), in both the alphabet and no-alphabet branches
of the byte-buffer variant. -/
theorem C10_unbounded_max_catalog_typeerror :
    bitArrayConstructBoundaryValues none =
        .error (.pyTypeError "unorderable types NoneType and int") ∧
    hexaStringConstructBoundaryValues none =
        .error (.pyTypeError "unorderable types NoneType and int") ∧
    ∀ (alpha : Option (List Nat)) (usz : Nat),
      rawConstructBoundaryValues alpha usz none =
        .error (.pyTypeError "unorderable types NoneType and int") :=
  ⟨rfl, rfl, fun _ _ => rfl⟩

theorem utf8DecodeGo_ascii :
    ∀ (f : Nat) (bs : List Nat), bs.length ≤ f → (∀ b ∈ bs, b < 128) →
      utf8DecodeGo f bs = some bs := by
  intro f
  induction f with
  | zero =>
    intro bs hle _
    have hnil : bs = [] := List.eq_nil_of_length_eq_zero (by omega)
    subst hnil
    rfl
  | succ k ih =>
    intro bs hle h
    match bs with
    | [] => rfl
    | b :: rest =>
      have hb : b < 128 := h b (by simp)
      have hrest := ih rest (by simp at hle; omega)
        (fun x hx => h x (by simp [hx]))
      rw [utf8DecodeGo.eq_def]
      simp only [if_pos hb, hrest, Option.map_some']

theorem utf8Decode_ascii (bs : List Nat) (h : ∀ b ∈ bs, b < 128) :
    utf8Decode bs = some bs :=
  utf8DecodeGo_ascii bs.length bs (le_refl _) h

theorem hexaCharLoop_ok (strData : List Nat) :
    ∀ (remaining i : Nat), i + remaining ≤ strData.length →
      ∃ bl, hexaCharLoop strData i remaining = .ok bl := by
  intro remaining
  induction remaining with
  | zero => exact fun i _ => ⟨true, rfl⟩
  | succ r ih =>
    intro i hle
    have hi : i < strData.length := by omega
    rw [hexaCharLoop, List.getElem?_eq_getElem hi]
    cases hc : isHexAllowedCp strData[i] with
    | true =>
      obtain ⟨bl, hbl⟩ := ih (i + 1) (by omega)
      exact ⟨bl, by simp [hc, hbl]⟩
    | false => exact ⟨false, by simp [hc]⟩

/-- C6 counterexample: present data that is merely the wrong shape DOES
raise in some variants — `BitArray.canParse` raises `TypeError` on any
non-bitarray argument, and `HexaString.canParse` raises
`UnicodeDecodeError` on bytes that are not valid UTF-8 — refuting "for any
present data that is merely the wrong shape, canParse returns false and
never raises". -/
theorem C6_counterexample :
    bitArrayCanParse ⟨none, none, none, false⟩
        (some (PyData.pyBytes [104, 105])) =
      .error (.pyTypeError "Data should be a python raw") ∧
    hexaStringCanParse (some (PyData.pyBytes [255])) =
      .error .pyUnicodeDecodeError := by
  exact ⟨rfl, rfl⟩

/-- C6 amended: every variant raises `TypeError` when `data` is absent
(`None`). For present data the variants differ: the IPv4 variant never
raises (both its constraint checks sit in bare except blocks) — every
shape of data gets a boolean verdict; the byte-buffer variant returns a
boolean for bit-sequence, bytes and str data (wrong length or content
yields false) and raises `TypeError` only on data without a length, such
as an int; the bit-string variant returns a boolean for bit-sequence data
but raises `TypeError` on every other shape; the hex-text variant returns
a boolean for ASCII byte data but raises `UnicodeDecodeError` on bytes
that are not valid UTF-8. -/
theorem C6_amended_canparse_error_surface :
    (∀ b : BitArrayT, bitArrayCanParse b none =
        .error (.pyTypeError "data cannot be None")) ∧
    hexaStringCanParse none = .error (.pyTypeError "data cannot be None") ∧
    (∀ r : RawT, rawCanParse r none =
        .error (.pyTypeError "data cannot be None")) ∧
    (∀ (ip : IPv4T) (sgn : SignT), ipv4CanParse ip none sgn =
        .error (.pyTypeError "data cannot be None")) ∧
    (∀ (b : BitArrayT) (l : List Bool),
        ∃ bl, bitArrayCanParse b (some (PyData.pyBits l)) = .ok bl) ∧
    (∀ (b : BitArrayT) (bs : List Nat),
        bitArrayCanParse b (some (PyData.pyBytes bs)) =
          .error (.pyTypeError "Data should be a python raw")) ∧
    (∀ (b : BitArrayT) (cs : List Char),
        bitArrayCanParse b (some (PyData.pyStr cs)) =
          .error (.pyTypeError "Data should be a python raw")) ∧
    (∀ (b : BitArrayT) (n : Int),
        bitArrayCanParse b (some (PyData.pyInt n)) =
          .error (.pyTypeError "Data should be a python raw")) ∧
    (∀ bs : List Nat, (∀ x ∈ bs, x < 128) →
        ∃ bl, hexaStringCanParse (some (PyData.pyBytes bs)) = .ok bl) ∧
    (∀ (ip : IPv4T) (d : PyData) (sgn : SignT),
        ∃ bl, ipv4CanParse ip (some d) sgn = .ok bl) ∧
    (∀ (r : RawT) (l : List Bool),
        ∃ bl, rawCanParse r (some (PyData.pyBits l)) = .ok bl) ∧
    (∀ (r : RawT) (bs : List Nat),
        ∃ bl, rawCanParse r (some (PyData.pyBytes bs)) = .ok bl) ∧
    (∀ (r : RawT) (cs : List Char),
        ∃ bl, rawCanParse r (some (PyData.pyStr cs)) = .ok bl) ∧
    (∀ (r : RawT) (n : Int),
        rawCanParse r (some (PyData.pyInt n)) =
          .error (.pyTypeError "object of type int has no len")) := by
  refine ⟨fun _ => rfl, rfl, fun _ => rfl, fun _ _ => rfl, ?_,
    fun _ _ => rfl, fun _ _ => rfl, fun _ _ => rfl, ?_, ?_, ?_, ?_, ?_,
    fun _ _ => rfl⟩
  · intro b l
    rcases b with ⟨mn, mx, v0, c0⟩
    simp only [bitArrayCanParse]
    by_cases h0 : l.length = 0
    · exact ⟨false, by rw [if_pos h0]⟩
    · rw [if_neg h0]
      cases mn with
      | some a =>
        by_cases ha : a > l.length
        · exact ⟨false, by simp [ha]⟩
        · cases mx with
          | some z =>
            by_cases hz : z < l.length
            · exact ⟨false, by simp [ha, hz]⟩
            · exact ⟨true, by simp [ha, hz]⟩
          | none => exact ⟨true, by simp [ha]⟩
      | none =>
        cases mx with
        | some z =>
          by_cases hz : z < l.length
          · exact ⟨false, by simp [hz]⟩
          · exact ⟨true, by simp [hz]⟩
        | none => exact ⟨true, by simp⟩
  · intro bs hascii
    simp only [hexaStringCanParse]
    by_cases h0 : bs.length = 0
    · exact ⟨false, by rw [if_pos h0]⟩
    · rw [if_neg h0, utf8Decode_ascii bs hascii]
      exact hexaCharLoop_ok bs bs.length 0 (by omega)
  · intro ip d sgn
    rcases ip with ⟨val, nw, cz⟩
    cases hE : ipv4Encode d sgn with
    | error e => exact ⟨false, by simp [ipv4CanParse, hE]⟩
    | ok o =>
      cases o with
      | none => exact ⟨false, by simp [ipv4CanParse, hE]⟩
      | some ipv =>
        by_cases hm : ipIsNetmask ipv
        · exact ⟨false, by simp [ipv4CanParse, hE, hm]⟩
        · cases val with
          | some v =>
            cases hC : typeConvertIPv4ToBits d sgn with
            | error e =>
              exact ⟨false, by simp [ipv4CanParse, hE, hm, hC]⟩
            | ok bits =>
              exact ⟨decide (v = bits), by simp [ipv4CanParse, hE, hm, hC]⟩
          | none =>
            cases nw with
            | some net =>
              exact ⟨netContains net ipv, by simp [ipv4CanParse, hE, hm]⟩
            | none => exact ⟨true, by simp [ipv4CanParse, hE, hm]⟩
  · intro r l
    rcases r with ⟨mn, mx, v0, c0, alpha, usz⟩
    simp only [rawCanParse]
    by_cases h0 : l.length = 0
    · exact ⟨false, by simp [h0]⟩
    · by_cases h8 : l.length % 8 = 0
      · cases alpha with
        | some a => exact ⟨false, by simp [h0, h8]⟩
        | none => exact ⟨true, by simp [h0, h8]⟩
      · exact ⟨false, by simp [h0, h8]⟩
  · intro r bs
    rcases r with ⟨mn, mx, v0, c0, alpha, usz⟩
    simp only [rawCanParse]
    by_cases h0 : bs.length = 0
    · exact ⟨false, by simp [h0]⟩
    · by_cases h8 : bs.length % 8 = 0
      · cases alpha with
        | some a => exact ⟨false, by simp [h0, h8]⟩
        | none => exact ⟨true, by simp [h0, h8]⟩
      · exact ⟨false, by simp [h0, h8]⟩
  · intro r cs
    rcases r with ⟨mn, mx, v0, c0, alpha, usz⟩
    simp only [rawCanParse]
    by_cases h0 : cs.length = 0
    · exact ⟨false, by simp [h0]⟩
    · by_cases h8 : cs.length % 8 = 0
      · cases alpha with
        | some a =>
          exact ⟨cs.all (fun c => decide (c.toNat ∈ a)), by simp [h0, h8]⟩
        | none => exact ⟨true, by simp [h0, h8]⟩
      · exact ⟨false, by simp [h0, h8]⟩

/-- Witness for C6's amended theorem: the hex digits of "ff" (ASCII bytes
102, 102) get a boolean verdict without raising. -/
theorem C6_witness :
    ∃ bl, hexaStringCanParse (some (PyData.pyBytes [102, 102])) = .ok bl :=
  C6_amended_canparse_error_surface.2.2.2.2.2.2.2.2.1 [102, 102] (by decide)

set_option maxRecDepth 4000 in
theorem byteRoundAuxBig : ∀ b : Fin 256,
    bitsToByte .big (byteToBits .big b.val) = b.val := by
  decide

set_option maxRecDepth 4000 in
theorem byteRoundAuxLittle : ∀ b : Fin 256,
    bitsToByte .little (byteToBits .little b.val) = b.val := by
  decide

theorem byteRoundAux (e : Endianness) (b : Fin 256) :
    bitsToByte e (byteToBits e b.val) = b.val := by
  cases e
  · exact byteRoundAuxBig b
  · exact byteRoundAuxLittle b

theorem bitsToBytesPadded_bytesToBits (e : Endianness) (bs : List Nat)
    (h : ∀ b ∈ bs, b < 256) :
    bitsToBytesPadded e (bytesToBits e bs) = bs := by
  induction bs with
  | nil => cases e <;> rfl
  | cons b rest ih =>
    have hb : b < 256 := h b (by simp)
    have hrest : ∀ x ∈ rest, x < 256 := fun x hx => h x (by simp [hx])
    have hbyte : bitsToByte e (byteToBits e b) = b := byteRoundAux e ⟨b, hb⟩
    have hstep : bytesToBits e (b :: rest) = byteToBits e b ++ bytesToBits e rest := by
      simp [bytesToBits]
    rw [hstep]
    cases e <;>
    · simp only [byteToBits] at hbyte ⊢
      simp only [List.cons_append, List.nil_append, bitsToBytesPadded]
      rw [hbyte]
      exact congrArg (List.cons b) (ih hrest)

theorem hexDigitRoundAux : ∀ x : Fin 16,
    hexDigitVal (hexDigitChar x.val) = some x.val := by
  decide

theorem hexEncBody_even (bs : List Nat) :
    ((bs.map (fun b => [hexDigitChar (b / 16 % 16), hexDigitChar (b % 16)])).flatten).length % 2 = 0 := by
  induction bs with
  | nil => rfl
  | cons b rest ih =>
    simp only [List.map_cons, List.flatten_cons, List.length_append,
      List.length_cons, List.length_nil]
    omega

theorem unhexlify_hexEncBody (bs : List Nat) (h : ∀ b ∈ bs, b < 256) :
    unhexlifyCore
      ((bs.map (fun b => [hexDigitChar (b / 16 % 16), hexDigitChar (b % 16)])).flatten) =
      .ok bs := by
  induction bs with
  | nil => rfl
  | cons b rest ih =>
    have hb : b < 256 := h b (by simp)
    have hrest : ∀ x ∈ rest, x < 256 := fun x hx => h x (by simp [hx])
    simp only [List.map_cons, List.flatten_cons, List.cons_append,
      List.nil_append, List.append_eq, unhexlifyCore]
    simp only [hexDigitRoundAux ⟨b / 16 % 16, by omega⟩,
      hexDigitRoundAux ⟨b % 16, by omega⟩]
    rw [ih hrest, pyBindOk]
    have harith : b / 16 % 16 * 16 + b % 16 = b := by omega
    rw [harith]

theorem hexAllowedVal (c : Nat) (h : isHexAllowedCp c = true) :
    ∃ v, hexDigitVal c = some v ∧ v < 16 ∧ hexDigitChar v = c := by
  simp only [isHexAllowedCp, Bool.or_eq_true, decide_eq_true_eq] at h
  rcases h with h | h
  · refine ⟨c - 48, ?_, by omega, ?_⟩
    · simp only [hexDigitVal]
      rw [if_pos (by omega)]
    · simp only [hexDigitChar]
      rw [if_pos (by omega)]
      omega
  · refine ⟨c - 87, ?_, by omega, ?_⟩
    · simp only [hexDigitVal]
      rw [if_neg (by omega), if_pos (by omega)]
    · simp only [hexDigitChar]
      rw [if_neg (by omega)]
      omega

theorem evenHexRoundAux (k : Nat) :
    ∀ cs : List Nat, cs.length ≤ k → cs.length % 2 = 0 →
      (∀ c ∈ cs, isHexAllowedCp c = true) →
      ∃ bytes, unhexlifyCore cs = .ok bytes ∧
        ((bytes.map (fun b => [hexDigitChar (b / 16 % 16), hexDigitChar (b % 16)])).flatten) = cs := by
  induction k with
  | zero =>
    intro cs hle _ _
    have : cs = [] := List.eq_nil_of_length_eq_zero (by omega)
    subst this
    exact ⟨[], rfl, rfl⟩
  | succ k ih =>
    intro cs hle hev hhex
    match cs with
    | [] => exact ⟨[], rfl, rfl⟩
    | [c] =>
      simp only [List.length_singleton] at hev
      omega
    | c1 :: c2 :: rest =>
      obtain ⟨v1, hval1, hlt1, hchar1⟩ :=
        hexAllowedVal c1 (hhex c1 (by simp))
      obtain ⟨v2, hval2, hlt2, hchar2⟩ :=
        hexAllowedVal c2 (hhex c2 (by simp))
      obtain ⟨bytes, hun, henc⟩ := ih rest
        (by simp at hle; omega)
        (by simp only [List.length_cons] at hev; omega)
        (fun c hc => hhex c (by simp [hc]))
      refine ⟨(v1 * 16 + v2) :: bytes, ?_, ?_⟩
      · simp only [unhexlifyCore, hval1, hval2]
        rw [hun, pyBindOk]
      · simp only [List.map_cons, List.flatten_cons, List.cons_append,
          List.nil_append, List.append_eq, henc]
        have e1 : (v1 * 16 + v2) / 16 % 16 = v1 := by omega
        have e2 : (v1 * 16 + v2) % 16 = v2 := by omega
        rw [e1, e2, hchar1, hchar2]

/-- The even-length all-lowercase-hex core: unhexlify succeeds and
re-hexlifying the bytes reproduces the digits. -/
theorem evenHexRound (cs : List Nat) (hev : cs.length % 2 = 0)
    (hhex : ∀ c ∈ cs, isHexAllowedCp c = true) :
    ∃ bytes, unhexlifyCore cs = .ok bytes ∧
      ((bytes.map (fun b => [hexDigitChar (b / 16 % 16), hexDigitChar (b % 16)])).flatten) = cs :=
  evenHexRoundAux cs.length cs (le_refl _) hev hhex

/-- C8: decode after encode is the identity for the variants without lossy
normalization — the bit-string codec on any byte sequence (both bit
orders) and the byte-buffer codec (the identity) — and for the hex-text
variant the round trip holds in both directions: unhexlifying hexlified
bytes gives the bytes back exactly, and hexlifying the bytes decoded from
a lowercase-hex digit string reproduces the digit string in its
left-zero-padded (even-length) form. -/
theorem C8_decode_encode_roundtrip :
    (∀ (e : Endianness) (bs : List Nat), (∀ b ∈ bs, b < 256) →
        ∃ l, bitArrayEncodeOp (some (PyData.pyBytes bs)) e = .ok l ∧
             bitArrayDecodeOp (some l) e = .ok bs) ∧
    (∀ bs : List Nat, (∀ b ∈ bs, b < 256) →
        ∃ cs, hexaStringEncode (some bs) = .ok cs ∧
              hexaStringDecode (some cs) = .ok bs) ∧
    (∀ cs : List Nat, (∀ c ∈ cs, isHexAllowedCp c = true) →
        ∃ bytes, hexaStringDecode (some cs) = .ok bytes ∧
          hexaStringEncode (some bytes) =
            .ok (if cs.length % 2 = 1 then 48 :: cs else cs)) ∧
    (∀ d : Option PyData, rawDecode (rawEncode d) = d) := by
  refine ⟨?_, ?_, ?_, fun _ => rfl⟩
  · intro e bs h
    exact ⟨bytesToBits e bs, rfl, by
      rw [bitArrayDecodeOp, bitsToBytesPadded_bytesToBits e bs h]⟩
  · intro bs h
    refine ⟨_, rfl, ?_⟩
    rw [hexaStringDecode,
      if_neg (by rw [hexEncBody_even bs]; omega),
      unhexlify_hexEncBody bs h]
  · intro cs hhex
    by_cases hodd : cs.length % 2 = 1
    · have hhex2 : ∀ c ∈ 48 :: cs, isHexAllowedCp c = true := by
        intro c hc
        rcases List.mem_cons.mp hc with rfl | hc
        · rfl
        · exact hhex c hc
      obtain ⟨bytes, hun, henc⟩ := evenHexRound (48 :: cs)
        (by simp; omega) hhex2
      refine ⟨bytes, ?_, ?_⟩
      · rw [hexaStringDecode, if_pos hodd, hun]
      · rw [hexaStringEncode, if_pos hodd, henc]
    · obtain ⟨bytes, hun, henc⟩ := evenHexRound cs (by omega) hhex
      refine ⟨bytes, ?_, ?_⟩
      · rw [hexaStringDecode, if_neg hodd, hun]
      · rw [hexaStringEncode, if_neg hodd, henc]

/-- Witness for C8: the byte 0xAB round-trips through the bit-string
codec, and the odd-length digit string "abc" decodes to the bytes of
"0abc" and re-encodes to exactly that padded form. -/
theorem C8_witness :
    (∃ l, bitArrayEncodeOp (some (PyData.pyBytes [171])) .big = .ok l ∧
          bitArrayDecodeOp (some l) .big = .ok [171]) ∧
    (∃ bytes, hexaStringDecode (some [97, 98, 99]) = .ok bytes ∧
      hexaStringEncode (some bytes) = .ok (if ([97, 98, 99] : List Nat).length % 2 = 1 then 48 :: [97, 98, 99] else [97, 98, 99])) :=
  ⟨(C8_decode_encode_roundtrip.1 .big [171] (by decide)),
   (C8_decode_encode_roundtrip.2.2.1 [97, 98, 99] (by decide))⟩

end NetzobModel
